import Mathlib

/-! # job-search-service: query construction and result mapping

A shallow embedding of the search path of the service:

* `internal/repository/elastic_repository.go`, `JobRepository.Search`: the query that is
  sent to the engine and the loop that decodes the engine's hits; `JobRepository.GetByID` and
  `JobRepository.Delete`;
* `internal/service/job_service.go`, `JobService.SearchJobs`, `GetJob` and `DeleteJob`;
* `internal/grpc/job_handler.go`, `JobHandler.SearchJobs`.

Conventions of the embedding.

* A Go value of type `interface{}` that holds JSON data (`map[string]interface{}`,
  `[]interface{}`, `string`, `float64`, `bool`, `nil`) is a `JSON` tree. A Go map is the list of
  its members; where a key is repeated the first member is the map's entry.
* `float64` values are only copied by this code, never computed with, and the ones that reach
  it were decoded from JSON, so they are finite: they are represented by the rational number
  they denote.
* A Go slice is the list of its elements (a nil slice and an empty slice are both `[]`).
* A Go `error` is represented by its message; a run-time panic is an outcome of its own.
-/

set_option autoImplicit false

/-- JSON data as Go holds it in `interface{}` values. -/
inductive JSON where
  | null
  | bool (b : Bool)
  | num (x : ℚ)
  | str (s : String)
  | arr (xs : List JSON)
  | obj (kvs : List (String × JSON))

namespace JSON

/-- The type assertion `v.(map[string]interface{})`; `none` stands for the panic of a failed
assertion. -/
def asMap : JSON → Option (List (String × JSON))
  | obj kvs => some kvs
  | _ => none

/-- The type assertion `v.([]interface{})`; `none` stands for the panic. -/
def asSlice : JSON → Option (List JSON)
  | arr xs => some xs
  | _ => none

/-- The two-valued type assertion `v.(float64)`: it never panics. -/
def asFloat64 : JSON → Option ℚ
  | num x => some x
  | _ => none

/-- The map index expression `m[k]`: the nil interface when `k` is not a key of `m`. -/
def index (m : List (String × JSON)) (k : String) : JSON :=
  (m.lookup k).getD null

/-- The map assignment `m[k] = v`. -/
def assign : List (String × JSON) → String → JSON → List (String × JSON)
  | [], k, v => [(k, v)]
  | (k', v') :: m, k, v => if k' = k then (k, v) :: m else (k', v') :: assign m k v

mutual
/-- Every object key that occurs anywhere in a JSON tree, in document order. -/
def allKeys : JSON → List String
  | obj kvs => allKeysMembers kvs
  | arr xs => allKeysList xs
  | _ => []
/-- Keys occurring in a list of JSON trees. -/
def allKeysList : List JSON → List String
  | [] => []
  | x :: xs => allKeys x ++ allKeysList xs
/-- Keys occurring in the members of an object. -/
def allKeysMembers : List (String × JSON) → List String
  | [] => []
  | (k, v) :: kvs => k :: (allKeys v ++ allKeysMembers kvs)
end

end JSON

/-! ## The query builder (`JobRepository.Search`, lines 55-145) -/

namespace JobRepository

open JSON

/-- The slice `mustQueries` as it stands at line 136 of `elastic_repository.go`, after the three
conditional appends. -/
def mustQueries (query location : String) (skills : List String) : List JSON :=
  let mustQueries : List JSON := []
  let mustQueries :=
    if query ≠ "" then
      mustQueries ++ [obj [
        ("bool", obj [
          ("should", arr [
            obj [
              ("multi_match", obj [
                ("query", str query),
                ("fields", arr [str "title^2", str "description", str "company^1.5"]),
                ("fuzziness", str "AUTO")])],
            obj [
              ("wildcard", obj [
                ("title.keyword", obj [
                  ("value", str ("*" ++ query ++ "*")),
                  ("case_insensitive", bool true)])])],
            obj [
              ("wildcard", obj [
                ("company.keyword", obj [
                  ("value", str ("*" ++ query ++ "*")),
                  ("case_insensitive", bool true)])])],
            obj [
              ("wildcard", obj [
                ("description.keyword", obj [
                  ("value", str ("*" ++ query ++ "*")),
                  ("case_insensitive", bool true)])])]]),
          ("minimum_should_match", num 1)])]]
    else mustQueries
  let mustQueries :=
    if location ≠ "" then
      mustQueries ++ [obj [
        ("bool", obj [
          ("should", arr [
            obj [
              ("match", obj [
                ("location", str location)])],
            obj [
              ("wildcard", obj [
                ("location.keyword", obj [
                  ("value", str ("*" ++ location ++ "*")),
                  ("case_insensitive", bool true)])])]]),
          ("minimum_should_match", num 1)])]]
    else mustQueries
  let mustQueries :=
    if skills.length > 0 then
      mustQueries ++ [obj [
        ("terms", obj [
          ("skills", arr (skills.map str))])]]
    else mustQueries
  mustQueries

/-- The value of `searchQuery` when it is encoded at line 147: the initial map literal, replaced
by the match-all map when `mustQueries` is empty and otherwise updated in place at
`query.bool.must`. `none` stands for a panic of one of the two type assertions of line 144. -/
def searchQuery (query location : String) (skills : List String) : Option JSON :=
  let searchQuery : List (String × JSON) :=
    [("query", obj [
      ("bool", obj [
        ("must", arr [])])])]
  let mustQueries := mustQueries query location skills
  if mustQueries.length = 0 then
    some (obj [
      ("query", obj [
        ("match_all", obj [])])])
  else
    match (index searchQuery "query").asMap with
    | none => none
    | some queryMap =>
      match (index queryMap "bool").asMap with
      | none => none
      | some boolMap =>
        some (obj (assign searchQuery "query"
          (obj (assign queryMap "bool" (obj (assign boolMap "must" (arr mustQueries)))))))

end JobRepository

/-! ## The Elasticsearch query forms named by the specification -/

namespace Query

open JSON

/-- The match-all query body. -/
def matchAll : JSON :=
  obj [("query", obj [("match_all", obj [])])]

/-- A query body that is a boolean query with the given `must` list. -/
def boolMust (clauses : List JSON) : JSON :=
  obj [("query", obj [("bool", obj [("must", arr clauses)])])]

/-- A boolean `should` group with a `minimum_should_match`. -/
def shouldGroup (clauses : List JSON) (minimum : ℚ) : JSON :=
  obj [("bool", obj [("should", arr clauses), ("minimum_should_match", num minimum)])]

/-- A `multi_match` clause: the text, the boosted field list and the fuzziness. -/
def multiMatch (text : String) (fields : List String) (fuzziness : String) : JSON :=
  obj [("multi_match", obj [("query", str text), ("fields", arr (fields.map str)),
    ("fuzziness", str fuzziness)])]

/-- A `wildcard` clause on one field. -/
def wildcard (field pattern : String) (caseInsensitive : Bool) : JSON :=
  obj [("wildcard", obj [(field, obj [("value", str pattern),
    ("case_insensitive", bool caseInsensitive)])])]

/-- An analyzed `match` clause on one field. -/
def matchField (field text : String) : JSON :=
  obj [("match", obj [(field, str text)])]

/-- A `terms` clause on one field. -/
def terms (field : String) (values : List String) : JSON :=
  obj [("terms", obj [(field, arr (values.map str))])]

/-- The `must` list of a query body, read at `query.bool.must`. -/
def mustOf (body : JSON) : Option (List JSON) :=
  match body.asMap with
  | none => none
  | some m =>
    match (index m "query").asMap with
    | none => none
    | some q =>
      match (index q "bool").asMap with
      | none => none
      | some b => (index b "must").asSlice

/-- The clause group of the free-text dimension. -/
def textGroup (q : String) : JSON :=
  shouldGroup [multiMatch q ["title^2", "description", "company^1.5"] "AUTO",
    wildcard "title.keyword" ("*" ++ q ++ "*") true,
    wildcard "company.keyword" ("*" ++ q ++ "*") true,
    wildcard "description.keyword" ("*" ++ q ++ "*") true] 1

/-- The clause group of the location dimension. -/
def locationGroup (l : String) : JSON :=
  shouldGroup [matchField "location" l, wildcard "location.keyword" ("*" ++ l ++ "*") true] 1

/-- The clause group of the skills dimension. -/
def skillsGroup (s : List String) : JSON :=
  terms "skills" s

/-- The number of non-empty dimensions of a criteria record. -/
def dimensions (q l : String) (s : List String) : Nat :=
  (if q ≠ "" then 1 else 0) + (if l ≠ "" then 1 else 0) + (if s ≠ [] then 1 else 0)

end Query

/-! ## The document model (`internal/models/job.go`) -/

/-- What the code uses of Go's `time` package, for a type `T` of time values: the zero
`time.Time`, `Time.UnmarshalJSON` on the text of a JSON string (`none` when the text is not an
RFC 3339 timestamp) and `Time.Format` with the layout `2006-01-02`. -/
structure TimePkg (T : Type) where
  zero : T
  unmarshalText : String → Option T
  formatDate : T → String

namespace models

/-- The struct `Job`. -/
structure Job (T : Type) where
  ID : String
  Title : String
  Description : String
  Company : String
  Location : String
  Skills : List String
  Salary : ℚ
  CreatedAt : T
  Score : ℚ
  deriving DecidableEq

/-- The zero value of `Job`, which `var job models.Job` declares. -/
def Job.zero {T : Type} (tm : TimePkg T) : Job T :=
  { ID := "", Title := "", Description := "", Company := "", Location := "", Skills := [],
    Salary := 0, CreatedAt := tm.zero, Score := 0 }

/-- The fields of `Job`. -/
inductive Field where
  | id | title | description | company | location | skills | salary | createdAt | score
  deriving DecidableEq

/-- The JSON name of a field, from its struct tag. -/
def Field.name : Field → String
  | .id => "id"
  | .title => "title"
  | .description => "description"
  | .company => "company"
  | .location => "location"
  | .skills => "skills"
  | .salary => "salary"
  | .createdAt => "created_at"
  | .score => "score"

/-- All fields, in declaration order. -/
def Field.all : List Field :=
  [.id, .title, .description, .company, .location, .skills, .salary, .createdAt, .score]

end models

/-! ## `encoding/json`: unmarshalling an object into a `Job`

`json.Unmarshal` of an object into a struct visits the members of the object in the order of
the text. For each key it looks for the field of that JSON name, exactly or else up to case
folding, and stores the value into it; a key that matches no field is ignored, a `null` leaves a
string, number or time field as it is, and a value of the wrong JSON type is an error. -/

namespace json

open JSON models

/-- Case folding of one rune, as far as it decides equality with an ASCII name: the lower-case
ASCII letters fold to upper case, and the only other runes that fold to an ASCII letter are the
Kelvin sign U+212A (to `K`) and the long s U+017F (to `S`). -/
def foldRune (c : Char) : Char :=
  if 97 ≤ c.toNat ∧ c.toNat ≤ 122 then Char.ofNat (c.toNat - 32)
  else if c.toNat = 0x212A then 'K'
  else if c.toNat = 0x17F then 'S'
  else c

/-- Case folding of a key. -/
def foldName (s : String) : List Char :=
  s.data.map foldRune

/-- The field of `Job` that an object key selects, if any. No two JSON names of `Job` are equal
up to case, so an exact match and a folded match select the same field. -/
def fieldOf (key : String) : Option Field :=
  Field.all.find? (fun f => foldName f.name = foldName key)

/-- The order in which `json.Marshal` writes string keys: bytewise on the UTF-8 encoding, which
is the lexicographic order of the code points. -/
def keyLess : List Char → List Char → Bool
  | [], [] => false
  | [], _ :: _ => true
  | _ :: _, [] => false
  | a :: as, b :: bs =>
    if a.toNat < b.toNat then true
    else if b.toNat < a.toNat then false
    else keyLess as bs

/-- Insert a member into a key-sorted member list; a key that is already there keeps its
value. -/
def insertMember (k : String) (v : JSON) : List (String × JSON) → List (String × JSON)
  | [] => [(k, v)]
  | (k', v') :: rest =>
    if k = k' then (k', v') :: rest
    else if keyLess k.data k'.data then (k, v) :: (k', v') :: rest
    else (k', v') :: insertMember k v rest

/-- The members of the object that `json.Marshal` writes for a map: one per key of the map,
sorted by key. -/
def Marshal (m : List (String × JSON)) : List (String × JSON) :=
  m.foldl (fun acc kv => insertMember kv.1 kv.2 acc) []

/-- Store a JSON value into a `string`; `none` is an `UnmarshalTypeError`. -/
def storeString (old : String) : JSON → Option String
  | str s => some s
  | null => some old
  | _ => none

/-- Store a JSON value into a `float64`. -/
def storeFloat64 (old : ℚ) : JSON → Option ℚ
  | num x => some x
  | null => some old
  | _ => none

/-- Store a JSON value into a `time.Time`, through `Time.UnmarshalJSON`. -/
def storeTime {T : Type} (tm : TimePkg T) (old : T) : JSON → Option T
  | str s => tm.unmarshalText s
  | null => some old
  | _ => none

/-- Store the elements of a non-empty JSON array into the backing array of a `[]string`, element
by element from index 0: an element of the backing array that is already there is the target of
the store (so a `null` keeps it), and past its end the target is a fresh empty string. -/
def storeElems : List String → List JSON → Option (List String)
  | backing, [] => some backing
  | [], x :: xs =>
    match storeString "" x, storeElems [] xs with
    | some s, some rest => some (s :: rest)
    | _, _ => none
  | b :: backing, x :: xs =>
    match storeString b x, storeElems backing xs with
    | some s, some rest => some (s :: rest)
    | _, _ => none

/-- The struct that `Unmarshal` is filling: the `Job`, and the elements of the backing array of
`job.Skills` that lie past the length of the slice. -/
structure Target (T : Type) where
  job : Job T
  spare : List String

/-- Store a JSON value into the `[]string` field `Skills`: `null` sets the slice to nil, an
empty array to a fresh empty slice, and a non-empty array of `n` elements is stored into the
backing array and the length set to `n`. -/
def storeSkills {T : Type} (t : Target T) : JSON → Option (Target T)
  | null => some { job := { t.job with Skills := [] }, spare := [] }
  | arr [] => some { job := { t.job with Skills := [] }, spare := [] }
  | arr (x :: xs) =>
    match storeElems (t.job.Skills ++ t.spare) (x :: xs) with
    | none => none
    | some backing =>
      some { job := { t.job with Skills := backing.take (x :: xs).length },
             spare := backing.drop (x :: xs).length }
  | _ => none

/-- Store the value of one member into the field its key selected. -/
def storeField {T : Type} (tm : TimePkg T) (t : Target T) (f : Field) (v : JSON) :
    Option (Target T) :=
  match f with
  | .id => (storeString t.job.ID v).map fun s => { t with job := { t.job with ID := s } }
  | .title => (storeString t.job.Title v).map fun s => { t with job := { t.job with Title := s } }
  | .description =>
    (storeString t.job.Description v).map fun s => { t with job := { t.job with Description := s } }
  | .company =>
    (storeString t.job.Company v).map fun s => { t with job := { t.job with Company := s } }
  | .location =>
    (storeString t.job.Location v).map fun s => { t with job := { t.job with Location := s } }
  | .skills => storeSkills t v
  | .salary =>
    (storeFloat64 t.job.Salary v).map fun x => { t with job := { t.job with Salary := x } }
  | .createdAt =>
    (storeTime tm t.job.CreatedAt v).map fun c => { t with job := { t.job with CreatedAt := c } }
  | .score =>
    (storeFloat64 t.job.Score v).map fun x => { t with job := { t.job with Score := x } }

/-- One member of the object: ignored when its key selects no field. -/
def storeMember {T : Type} (tm : TimePkg T) (t : Target T) (kv : String × JSON) :
    Option (Target T) :=
  match fieldOf kv.1 with
  | none => some t
  | some f => storeField tm t f kv.2

/-- The members of an object, stored one after the other; `none` as soon as one is an error
(`Unmarshal` goes on after a type error, but it returns the error in the end). -/
def storeMembers {T : Type} (tm : TimePkg T) : Target T → List (String × JSON) → Option (Target T)
  | t, [] => some t
  | t, kv :: rest =>
    match storeMember tm t kv with
    | none => none
    | some t' => storeMembers tm t' rest

/-- The two calls `jobData, _ := json.Marshal(source)` and `json.Unmarshal(jobData, &job)` on a
zero `job`: `none` when `Unmarshal` returns an error, else the `job` it filled. (`Marshal`
cannot fail on a value decoded from JSON.) -/
def Unmarshal {T : Type} (tm : TimePkg T) (source : List (String × JSON)) : Option (Job T) :=
  (storeMembers tm { job := Job.zero tm, spare := [] } (Marshal source)).map fun t => t.job

end json

/-! ## Outcomes, the engine, and the hit-decoding loop (`JobRepository.Search`, lines 147-187) -/

/-- How a Go function call ends: it returns a value with a nil error, it returns an error, or
it panics. -/
inductive Outcome (α : Type) where
  | ok (a : α)
  | error (msg : String)
  | panic
  deriving DecidableEq

/-- What the code reads of an `esapi.Response`: the status code, the text `res.String()`, and
what decoding the body as JSON gives (its value, or the message of the decoder's error). -/
structure Response where
  StatusCode : Nat
  text : String
  body : Except String JSON

/-- The method `IsError` of `esapi.Response`: the status code is above 299. -/
def Response.IsError (res : Response) : Bool :=
  res.StatusCode > 299

/-- The search call of the engine client, for the index and context of the repository: from the
request body to the client's error or the engine's response. -/
abbrev Engine := JSON → Except String Response

namespace JobRepository

open JSON models

/-- What one turn of the loop of lines 174-185 does with a hit. -/
inductive Turn (T : Type) where
  | panics
  | skips
  | appends (job : Job T)
  deriving DecidableEq

/-- The body of the loop, lines 175-184, on one hit: the two type assertions of line 175, the
re-marshalling of the source into a zero `Job`, `continue` on an error, and the assignment of
`job.Score` when `_score` is a `float64`. -/
def decodeHit {T : Type} (tm : TimePkg T) (hit : JSON) : Turn T :=
  match hit.asMap with
  | none => .panics
  | some hitMap =>
    match (index hitMap "_source").asMap with
    | none => .panics
    | some source =>
      match json.Unmarshal tm source with
      | none => .skips
      | some job =>
        match (index hitMap "_score").asFloat64 with
        | some score => .appends { job with Score := score }
        | none => .appends job

/-- The loop of lines 174-185 from the slice `jobs` built so far, and the return of line 187. -/
def decodeHits {T : Type} (tm : TimePkg T) : List JSON → List (Job T) → Outcome (List (Job T))
  | [], jobs => .ok jobs
  | hit :: hits, jobs =>
    match decodeHit tm hit with
    | .panics => .panic
    | .skips => decodeHits tm hits jobs
    | .appends job => decodeHits tm hits (jobs ++ [job])

/-- Decoding of the response body into `var result map[string]interface{}` (line 167): an object
gives its map, `null` leaves the nil map, and any other JSON value is a decoding error. -/
def decodeResult : Except String JSON → Except String (List (String × JSON))
  | .error msg => .error msg
  | .ok (obj m) => .ok m
  | .ok null => .ok []
  | .ok _ => .error "json: cannot unmarshal into Go value of type map[string]interface \x7b\x7d"

/-- The method `JobRepository.Search`. Encoding the query (line 147) cannot fail: the query
holds only maps, slices, strings, a boolean and an integer. -/
def Search {T : Type} (tm : TimePkg T) (engine : Engine) (query location : String)
    (skills : List String) : Outcome (List (Job T)) :=
  match searchQuery query location skills with
  | none => .panic
  | some body =>
    match engine body with
    | .error err => .error ("error executing search: " ++ err)
    | .ok res =>
      if res.IsError then .error ("error response: " ++ res.text)
      else
        match decodeResult res.body with
        | .error err => .error ("error parsing response body: " ++ err)
        | .ok result =>
          match (index result "hits").asMap with
          | none => .panic
          | some hitsMap =>
            match (index hitsMap "hits").asSlice with
            | none => .panic
            | some hits => decodeHits tm hits []

/-- A point call of the engine client (the get of `GetByID`, the delete request of `Delete`),
for the index of the repository: from the document id to the client's error or the engine's
response. -/
abbrev PointCall := String → Except String Response

/-- The method `JobRepository.GetByID` (lines 190-217). `jsonError source` is the message of the
error that `json.Unmarshal` returns for the source document when it returns one. -/
def GetByID {T : Type} (tm : TimePkg T) (jsonError : List (String × JSON) → String)
    (get : PointCall) (id : String) : Outcome (Job T) :=
  match get id with
  | .error err => .error ("error getting document: " ++ err)
  | .ok res =>
    if res.IsError then
      if res.StatusCode = 404 then .error "job not found"
      else .error ("error getting document: " ++ res.text)
    else
      match decodeResult res.body with
      | .error err => .error ("error parsing response: " ++ err)
      | .ok result =>
        match (index result "_source").asMap with
        | none => .panic
        | some source =>
          match json.Unmarshal tm source with
          | none => .error ("error unmarshaling job: " ++ jsonError source)
          | some job => .ok job

/-- The method `JobRepository.Delete` (lines 219-240). -/
def Delete (delete : PointCall) (id : String) : Outcome Unit :=
  match delete id with
  | .error err => .error ("error deleting document: " ++ err)
  | .ok res =>
    if res.IsError then
      if res.StatusCode = 404 then .error "job not found"
      else .error ("error deleting document: " ++ res.text)
    else .ok ()

end JobRepository

/-! ## The service and the handler -/

namespace JobService

/-- The method `JobService.SearchJobs`: the repository's result, its error wrapped. -/
def SearchJobs {T : Type} (tm : TimePkg T) (engine : Engine) (query location : String)
    (skills : List String) : Outcome (List (models.Job T)) :=
  match JobRepository.Search tm engine query location skills with
  | .ok jobs => .ok jobs
  | .error err => .error ("failed to search jobs: " ++ err)
  | .panic => .panic

/-- The method `JobService.GetJob`: the repository's result, its error wrapped. -/
def GetJob {T : Type} (tm : TimePkg T) (jsonError : List (String × JSON) → String)
    (get : JobRepository.PointCall) (id : String) : Outcome (models.Job T) :=
  match JobRepository.GetByID tm jsonError get id with
  | .ok job => .ok job
  | .error err => .error ("failed to get job: " ++ err)
  | .panic => .panic

/-- The method `JobService.DeleteJob`: the repository's result, its error wrapped. -/
def DeleteJob (delete : JobRepository.PointCall) (id : String) : Outcome Unit :=
  match JobRepository.Delete delete id with
  | .ok u => .ok u
  | .error err => .error ("failed to delete job: " ++ err)
  | .panic => .panic

end JobService

namespace pb

/-- Modelled from the spec: the generated message `pb.Job` of package `proto`, which is not
among the sources. Its fields are the eight that `JobHandler.SearchJobs` sets and the field
`Score` that the client reads from the response (`job.Score > 0`, printed as the relevance). -/
structure Job where
  Id : String
  Title : String
  Description : String
  Company : String
  Location : String
  Skills : List String
  Salary : ℚ
  CreatedAt : String
  Score : ℚ
  deriving DecidableEq

/-- Modelled from the spec: the generated message `pb.SearchJobsRequest`, with the three fields
the handler reads. -/
structure SearchJobsRequest where
  Query : String
  Location : String
  Skills : List String

/-- Modelled from the spec: the generated message `pb.SearchJobsResponse`, with the two fields
the handler sets; `Total` is an `int32`. -/
structure SearchJobsResponse where
  Jobs : List Job
  Total : Int
  deriving DecidableEq

end pb

/-- The conversion `int32(n)` of a Go `int`: the value modulo `2^32`, in the signed range. -/
def int32 (n : Int) : Int :=
  (n + 2 ^ 31) % 2 ^ 32 - 2 ^ 31

namespace JobHandler

/-- The composite literal of lines 55-64: the `pb.Job` made from a `Job`. The literal names
eight fields; `Score` is not among them and keeps its zero value. -/
def toPb {T : Type} (tm : TimePkg T) (job : models.Job T) : pb.Job :=
  { Id := job.ID
    Title := job.Title
    Description := job.Description
    Company := job.Company
    Location := job.Location
    Skills := job.Skills
    Salary := job.Salary
    CreatedAt := tm.formatDate job.CreatedAt
    Score := 0 }

/-- The loop of lines 53-65 from the slice `pbJobs` built so far. -/
def appendPbJobs {T : Type} (tm : TimePkg T) : List (models.Job T) → List pb.Job → List pb.Job
  | [], pbJobs => pbJobs
  | job :: jobs, pbJobs => appendPbJobs tm jobs (pbJobs ++ [toPb tm job])

/-- The method `JobHandler.SearchJobs`. -/
def SearchJobs {T : Type} (tm : TimePkg T) (engine : Engine) (req : pb.SearchJobsRequest) :
    Outcome pb.SearchJobsResponse :=
  match JobService.SearchJobs tm engine req.Query req.Location req.Skills with
  | .error err => .error err
  | .panic => .panic
  | .ok jobs =>
    let pbJobs := appendPbJobs tm jobs []
    .ok { Jobs := pbJobs, Total := int32 pbJobs.length }

end JobHandler

/-! ## Sample values used by the examples -/

/-- A time package for the examples: a time value is kept as its text, the zero time is
`0001-01-01T00:00:00Z`, and the date of a time is the first ten characters of the text. -/
def textTime : TimePkg String :=
  { zero := "0001-01-01T00:00:00Z"
    unmarshalText := fun s => some s
    formatDate := fun s => s.take 10 }

/-- An engine that answers every search with status 200 and the given hits. -/
def engineWithHits (hits : List JSON) : Engine :=
  fun _ => .ok { StatusCode := 200, text := "[200 OK]",
                 body := .ok (.obj [("hits", .obj [("hits", .arr hits)])]) }

/-- A point call that answers every id with the given response. -/
def answering (res : Response) : JobRepository.PointCall :=
  fun _ => .ok res

/-- A stand-in for the text of the errors of `json.Unmarshal`. -/
def typeErrorText : List (String × JSON) → String :=
  fun _ => "json: cannot unmarshal value into Go struct field of type models.Job"

/-! ## Notions used in the statements -/

namespace JobRepository

open JSON models

/-- The Job that the loop appends for a hit, if it appends one. -/
def decoded {T : Type} (tm : TimePkg T) (hit : JSON) : Option (Job T) :=
  match decodeHit tm hit with
  | .appends job => some job
  | _ => none

/-- The engine answers the search for the given criteria with a success response whose body
carries the hit list `hits` (at `hits.hits`). -/
def RepliesWith (engine : Engine) (query location : String) (skills : List String)
    (hits : List JSON) : Prop :=
  ∃ body res result hitsMap,
    searchQuery query location skills = some body ∧ engine body = .ok res ∧
    res.IsError = false ∧ decodeResult res.body = .ok result ∧
    (index result "hits").asMap = some hitsMap ∧ (index hitsMap "hits").asSlice = some hits

end JobRepository

namespace models

/-- A source document has no member for the field `f`: none of its keys selects `f`. -/
def Lacks (f : Field) (source : List (String × JSON)) : Prop :=
  ∀ kv ∈ source, json.fieldOf kv.1 ≠ some f

instance (f : Field) (source : List (String × JSON)) : Decidable (Lacks f source) := by
  unfold Lacks
  infer_instance

/-- The field `f` of a Job holds the zero value of its type. -/
def Job.ZeroAt {T : Type} (tm : TimePkg T) (f : Field) (job : Job T) : Prop :=
  match f with
  | .id => job.ID = ""
  | .title => job.Title = ""
  | .description => job.Description = ""
  | .company => job.Company = ""
  | .location => job.Location = ""
  | .skills => job.Skills = []
  | .salary => job.Salary = 0
  | .createdAt => job.CreatedAt = tm.zero
  | .score => job.Score = 0

end models

namespace json

open JSON models

/-- A JSON value that can be stored into a `string`: a string, or `null`. -/
def acceptsString : JSON → Bool
  | str _ => true
  | null => true
  | _ => false

/-- A JSON value that can be stored into a `float64`: a number, or `null`. -/
def acceptsFloat64 : JSON → Bool
  | num _ => true
  | null => true
  | _ => false

/-- A JSON value that can be stored into a `time.Time`: a string that is a timestamp, or
`null`. -/
def acceptsTime {T : Type} (tm : TimePkg T) : JSON → Bool
  | str s => (tm.unmarshalText s).isSome
  | null => true
  | _ => false

/-- A JSON value that can be stored into a `[]string`: an array of strings and nulls, or
`null`. -/
def acceptsSkills : JSON → Bool
  | arr xs => xs.all acceptsString
  | null => true
  | _ => false

/-- The field `f` of Job accepts the JSON value `v`: storing `v` into `f` is no error. -/
def Accepts {T : Type} (tm : TimePkg T) (f : Field) (v : JSON) : Bool :=
  match f with
  | .id | .title | .description | .company | .location => acceptsString v
  | .skills => acceptsSkills v
  | .salary | .score => acceptsFloat64 v
  | .createdAt => acceptsTime tm v

end json

/-! ## Lemmas on the query builder -/

namespace JobRepository

open JSON Query

theorem mustQueries_eq (q l : String) (s : List String) :
    mustQueries q l s =
      (if q ≠ "" then [textGroup q] else []) ++ (if l ≠ "" then [locationGroup l] else []) ++
        (if s ≠ [] then [skillsGroup s] else []) := by
  have hs : s.length > 0 ↔ s ≠ [] := List.length_pos
  by_cases hq : q = "" <;> by_cases hl : l = "" <;> by_cases hs' : s = [] <;>
    simp_all [mustQueries, textGroup, locationGroup, skillsGroup, shouldGroup, multiMatch,
      wildcard, matchField, terms]

theorem searchQuery_eq (q l : String) (s : List String) :
    searchQuery q l s =
      some (if (mustQueries q l s).length = 0 then matchAll
        else boolMust (mustQueries q l s)) := by
  by_cases h : (mustQueries q l s).length = 0
  · simp [searchQuery, h, matchAll]
  · simp [searchQuery, h, boolMust, index, assign, asMap, List.lookup]

theorem mustOf_boolMust (cs : List JSON) : mustOf (boolMust cs) = some cs := by
  simp [mustOf, boolMust, index, asMap, asSlice, List.lookup]

theorem mustQueries_length (q l : String) (s : List String) :
    (mustQueries q l s).length = dimensions q l s := by
  rw [mustQueries_eq]
  by_cases hq : q = "" <;> by_cases hl : l = "" <;> by_cases hs : s = [] <;>
    simp [dimensions, hq, hl, hs]

theorem dimensions_pos (q l : String) (s : List String) (h : q ≠ "" ∨ l ≠ "" ∨ s.length > 0) :
    1 ≤ dimensions q l s := by
  have hs : s.length > 0 ↔ s ≠ [] := List.length_pos
  by_cases hq : q = "" <;> by_cases hl : l = "" <;> by_cases hs' : s = [] <;>
    simp_all [dimensions]

theorem dimensions_le (q l : String) (s : List String) : dimensions q l s ≤ 3 := by
  by_cases hq : q = "" <;> by_cases hl : l = "" <;> by_cases hs' : s = [] <;>
    simp [dimensions, hq, hl, hs']

theorem boolMust_ne_matchAll (cs : List JSON) : boolMust cs ≠ matchAll := by
  simp [boolMust, matchAll]

end JobRepository

/-! ## The query builder: claims C1 to C5 -/

/-- C1: for every criteria record whose three dimensions are all empty (`query = ""`,
`location = ""`, `skills` of length 0), no clause is appended to `mustQueries`, the query body
that `JobRepository.Search` builds is exactly the match-all query, whose only keys are `query`
and `match_all` (so it has no `bool` and no `must` node), and the outcome of `Search` depends on
the engine only through its reply to that body. -/
theorem C1_empty_criteria_build_match_all (query location : String) (skills : List String)
    (hq : query = "") (hl : location = "") (hs : skills.length = 0) :
    JobRepository.mustQueries query location skills = [] ∧
      JobRepository.searchQuery query location skills =
        some (JSON.obj [("query", JSON.obj [("match_all", JSON.obj [])])]) ∧
      (∀ body, JobRepository.searchQuery query location skills = some body →
        body.allKeys = ["query", "match_all"] ∧ "bool" ∉ body.allKeys ∧
          "must" ∉ body.allKeys) ∧
      (∀ (T : Type) (tm : TimePkg T) (e₁ e₂ : Engine),
        e₁ Query.matchAll = e₂ Query.matchAll →
          JobRepository.Search tm e₁ query location skills =
            JobRepository.Search tm e₂ query location skills) := by
  have hs' : skills = [] := List.length_eq_zero.mp hs
  subst hq hl hs'
  have hm : JobRepository.mustQueries "" "" [] = [] := by
    simp [JobRepository.mustQueries]
  have hq : JobRepository.searchQuery "" "" [] = some Query.matchAll := by
    rw [JobRepository.searchQuery_eq, hm]; simp
  refine ⟨hm, ?_, ?_, ?_⟩
  · rw [hq]; rfl
  · intro body hb
    rw [hq] at hb
    cases hb
    simp [Query.matchAll, JSON.allKeys, JSON.allKeysMembers]
  · intro T tm e₁ e₂ he
    simp only [JobRepository.Search, hq, he]

/-- C1, at the empty criteria record. -/
theorem C1_empty_criteria_build_match_all_witness :
    JobRepository.mustQueries "" "" [] = [] ∧
      JobRepository.searchQuery "" "" [] =
        some (JSON.obj [("query", JSON.obj [("match_all", JSON.obj [])])]) :=
  ⟨(C1_empty_criteria_build_match_all "" "" [] rfl rfl rfl).1,
    (C1_empty_criteria_build_match_all "" "" [] rfl rfl rfl).2.1⟩

/-- C2: for every criteria record with at least one non-empty dimension, the query body that
`JobRepository.Search` builds is a boolean query whose `must` list is the text group when
`query` is non-empty, then the location group when `location` is non-empty, then the skills
group when `skills` is non-empty, and nothing else; so the length of the list is the number of
non-empty dimensions, between 1 and 3, and the body is not the match-all query. -/
theorem C2_must_list_one_group_per_dimension (query location : String) (skills : List String)
    (h : query ≠ "" ∨ location ≠ "" ∨ skills.length > 0) :
    ∃ must : List JSON,
      JobRepository.searchQuery query location skills = some (Query.boolMust must) ∧
      Query.mustOf (Query.boolMust must) = some must ∧
      must =
        (if query ≠ "" then [Query.textGroup query] else []) ++
          (if location ≠ "" then [Query.locationGroup location] else []) ++
          (if skills ≠ [] then [Query.skillsGroup skills] else []) ∧
      must.length = Query.dimensions query location skills ∧
      1 ≤ must.length ∧ must.length ≤ 3 ∧
      JobRepository.searchQuery query location skills ≠ some Query.matchAll := by
  have hlen := JobRepository.mustQueries_length query location skills
  have hpos := JobRepository.dimensions_pos query location skills h
  have hle := JobRepository.dimensions_le query location skills
  have hq : JobRepository.searchQuery query location skills =
      some (Query.boolMust (JobRepository.mustQueries query location skills)) := by
    rw [JobRepository.searchQuery_eq, if_neg (by omega)]
  refine ⟨JobRepository.mustQueries query location skills, hq,
    JobRepository.mustOf_boolMust _, JobRepository.mustQueries_eq _ _ _, hlen, by omega,
    by omega, ?_⟩
  rw [hq]
  intro hc
  exact JobRepository.boolMust_ne_matchAll _ (Option.some.inj hc)

/-- C2, at the criteria record with the query `go` and the skill `sql`. -/
theorem C2_must_list_one_group_per_dimension_witness :
    ∃ must : List JSON,
      JobRepository.searchQuery "go" "" ["sql"] = some (Query.boolMust must) ∧
      Query.mustOf (Query.boolMust must) = some must ∧
      must =
        (if ("go" : String) ≠ "" then [Query.textGroup "go"] else []) ++
          (if ("" : String) ≠ "" then [Query.locationGroup ""] else []) ++
          (if ["sql"] ≠ [] then [Query.skillsGroup ["sql"]] else []) ∧
      must.length = Query.dimensions "go" "" ["sql"] ∧
      1 ≤ must.length ∧ must.length ≤ 3 ∧
      JobRepository.searchQuery "go" "" ["sql"] ≠ some Query.matchAll :=
  C2_must_list_one_group_per_dimension "go" "" ["sql"] (Or.inl (by decide))

/-- C3: for every non-empty query string `q`, whatever the other two dimensions, the first
clause of the `must` list is a `should` group with `minimum_should_match` 1 that holds exactly
four clauses: a `multi_match` on `q` over `title^2`, `description` and `company^1.5` (boosts 2,
none, and 1.5) with fuzziness `AUTO`, and three case-insensitive `wildcard` clauses on
`title.keyword`, `company.keyword` and `description.keyword`, each with the pattern
`"*" ++ q ++ "*"`, whose characters are a star, the characters of `q` unchanged, and a star. -/
theorem C3_text_group_shape (q location : String) (skills : List String) (hq : q ≠ "") :
    ∃ rest : List JSON,
      (JobRepository.searchQuery q location skills).bind Query.mustOf =
        some (JSON.obj [("bool", JSON.obj [
          ("should", JSON.arr [
            Query.multiMatch q ["title^2", "description", "company^1.5"] "AUTO",
            Query.wildcard "title.keyword" ("*" ++ q ++ "*") true,
            Query.wildcard "company.keyword" ("*" ++ q ++ "*") true,
            Query.wildcard "description.keyword" ("*" ++ q ++ "*") true]),
          ("minimum_should_match", JSON.num 1)])] :: rest) ∧
      ("*" ++ q ++ "*").data = '*' :: (q.data ++ ['*']) := by
  have hne : (JobRepository.mustQueries q location skills).length ≠ 0 := by
    rw [JobRepository.mustQueries_length]
    have := JobRepository.dimensions_pos q location skills (Or.inl hq)
    omega
  refine ⟨(if location ≠ "" then [Query.locationGroup location] else []) ++
    (if skills ≠ [] then [Query.skillsGroup skills] else []), ?_, ?_⟩
  · rw [JobRepository.searchQuery_eq, if_neg hne, Option.some_bind,
      JobRepository.mustOf_boolMust, JobRepository.mustQueries_eq, if_pos hq]
    simp [Query.textGroup, Query.shouldGroup]
  · simp [String.data_append]

/-- C3, at the query `a*b?`, which holds both pattern characters. -/
theorem C3_text_group_shape_witness :
    ∃ rest : List JSON,
      (JobRepository.searchQuery "a*b?" "" []).bind Query.mustOf =
        some (JSON.obj [("bool", JSON.obj [
          ("should", JSON.arr [
            Query.multiMatch "a*b?" ["title^2", "description", "company^1.5"] "AUTO",
            Query.wildcard "title.keyword" ("*" ++ "a*b?" ++ "*") true,
            Query.wildcard "company.keyword" ("*" ++ "a*b?" ++ "*") true,
            Query.wildcard "description.keyword" ("*" ++ "a*b?" ++ "*") true]),
          ("minimum_should_match", JSON.num 1)])] :: rest) ∧
      ("*" ++ "a*b?" ++ "*").data = '*' :: (("a*b?" : String).data ++ ['*']) :=
  C3_text_group_shape "a*b?" "" [] (by decide)

/-- C4: for every non-empty skills list `s`, whatever the other two dimensions, the last clause
of the `must` list is the single clause `terms` on the field `skills` whose term list is the
list `s` itself, element by element; the keys of that clause are `terms` and `skills` only, so
it has no `fuzziness` and no `wildcard`; and it is the only `terms` clause of the list. For an
empty `s` no key `terms` occurs in the query body. -/
theorem C4_skills_group_shape (query location : String) (s : List String) :
    (s ≠ [] →
      ∃ front : List JSON,
        (JobRepository.searchQuery query location s).bind Query.mustOf =
          some (front ++
            [JSON.obj [("terms", JSON.obj [("skills", JSON.arr (s.map JSON.str))])]]) ∧
        (JSON.obj [("terms", JSON.obj [("skills", JSON.arr (s.map JSON.str))])]).allKeys =
          ["terms", "skills"] ∧
        "terms" ∉ JSON.allKeysList front) ∧
    (s = [] →
      ∀ body, JobRepository.searchQuery query location s = some body →
        "terms" ∉ body.allKeys) := by
  have hstr : ∀ xs : List String, JSON.allKeysList (xs.map JSON.str) = [] := by
    intro xs
    induction xs with
    | nil => rfl
    | cons x xs ih => simp [JSON.allKeysList, JSON.allKeys, ih]
  constructor
  · intro hs
    have hne : (JobRepository.mustQueries query location s).length ≠ 0 := by
      rw [JobRepository.mustQueries_length]
      have := JobRepository.dimensions_pos query location s
        (Or.inr (Or.inr (List.length_pos.mpr hs)))
      omega
    refine ⟨(if query ≠ "" then [Query.textGroup query] else []) ++
      (if location ≠ "" then [Query.locationGroup location] else []), ?_, ?_, ?_⟩
    · rw [JobRepository.searchQuery_eq, if_neg hne, Option.some_bind,
        JobRepository.mustOf_boolMust, JobRepository.mustQueries_eq, if_pos hs]
      simp [Query.skillsGroup, Query.terms]
    · simp [JSON.allKeys, JSON.allKeysMembers, hstr]
    · by_cases hq : query = "" <;> by_cases hl : location = "" <;>
        simp [hq, hl, Query.textGroup, Query.locationGroup, Query.shouldGroup,
          Query.multiMatch, Query.wildcard, Query.matchField, JSON.allKeys, JSON.allKeysList,
          JSON.allKeysMembers]
  · intro hs body hb
    subst hs
    rw [JobRepository.searchQuery_eq, JobRepository.mustQueries_eq] at hb
    have hb' := Option.some.inj hb
    subst hb'
    by_cases hq : query = "" <;> by_cases hl : location = "" <;>
      simp [hq, hl, Query.matchAll, Query.boolMust, Query.textGroup, Query.locationGroup,
        Query.shouldGroup, Query.multiMatch, Query.wildcard, Query.matchField, JSON.allKeys,
        JSON.allKeysList, JSON.allKeysMembers]

/-- C4, at the skills list `Go`, ` sql ` (mixed case, surrounding blanks) with a query, and at
the empty skills list. -/
theorem C4_skills_group_shape_witness :
    (∃ front : List JSON,
        (JobRepository.searchQuery "backend" "" ["Go", " sql "]).bind Query.mustOf =
          some (front ++
            [JSON.obj [("terms", JSON.obj [("skills",
              JSON.arr (["Go", " sql "].map JSON.str))])]]) ∧
        (JSON.obj [("terms", JSON.obj [("skills",
            JSON.arr (["Go", " sql "].map JSON.str))])]).allKeys = ["terms", "skills"] ∧
        "terms" ∉ JSON.allKeysList front) ∧
    (∀ body, JobRepository.searchQuery "backend" "" [] = some body →
        "terms" ∉ body.allKeys) :=
  ⟨(C4_skills_group_shape "backend" "" ["Go", " sql "]).1 (by decide),
    (C4_skills_group_shape "backend" "" []).2 rfl⟩

/-- C5, counterexample: for the location `Berlin` (no query, no skills) the `must` list is the
location group alone, and no key `fuzziness` occurs anywhere in it: the `match` clause on
`location` is not a fuzzy match. The text group of the query `Berlin` does carry the key. -/
theorem C5_location_match_is_not_fuzzy :
    (JobRepository.searchQuery "" "Berlin" []).bind Query.mustOf =
        some [JSON.obj [("bool", JSON.obj [
          ("should", JSON.arr [
            JSON.obj [("match", JSON.obj [("location", JSON.str "Berlin")])],
            JSON.obj [("wildcard", JSON.obj [("location.keyword", JSON.obj [
              ("value", JSON.str "*Berlin*"), ("case_insensitive", JSON.bool true)])])]]),
          ("minimum_should_match", JSON.num 1)])]] ∧
      "fuzziness" ∉ JSON.allKeysList (JobRepository.mustQueries "" "Berlin" []) ∧
      "fuzziness" ∈ JSON.allKeysList (JobRepository.mustQueries "Berlin" "" []) := by
  refine ⟨rfl, ?_, ?_⟩
  · simp [JobRepository.mustQueries, JSON.allKeys, JSON.allKeysList, JSON.allKeysMembers]
  · simp [JobRepository.mustQueries, JSON.allKeys, JSON.allKeysList, JSON.allKeysMembers]

/-- C5, amended: for every non-empty location string `l`, whatever the other two dimensions, the
clause of the `must` list that follows the text group (the first clause when `query` is empty)
is a `should` group with `minimum_should_match` 1 that holds exactly two clauses: the analyzed
`match` clause on the field `location` with the text `l`, which has the keys `match` and
`location` only and so no fuzziness, and a case-insensitive `wildcard` clause on
`location.keyword` with the pattern `"*" ++ l ++ "*"`; no key `fuzziness` occurs in the
group. -/
theorem C5_location_group_shape (query l : String) (skills : List String) (hl : l ≠ "") :
    ∃ front group rest,
      (JobRepository.searchQuery query l skills).bind Query.mustOf =
        some (front ++ group :: rest) ∧
      group = JSON.obj [("bool", JSON.obj [
          ("should", JSON.arr [
            JSON.obj [("match", JSON.obj [("location", JSON.str l)])],
            Query.wildcard "location.keyword" ("*" ++ l ++ "*") true]),
          ("minimum_should_match", JSON.num 1)])] ∧
      front = (if query ≠ "" then [Query.textGroup query] else []) ∧
      rest = (if skills ≠ [] then [Query.skillsGroup skills] else []) ∧
      (JSON.obj [("match", JSON.obj [("location", JSON.str l)])]).allKeys =
        ["match", "location"] ∧
      "fuzziness" ∉ group.allKeys := by
  have hne : (JobRepository.mustQueries query l skills).length ≠ 0 := by
    rw [JobRepository.mustQueries_length]
    have := JobRepository.dimensions_pos query l skills (Or.inr (Or.inl hl))
    omega
  refine ⟨_, _, _, ?_, rfl, rfl, rfl, rfl, ?_⟩
  · rw [JobRepository.searchQuery_eq, if_neg hne, Option.some_bind,
      JobRepository.mustOf_boolMust, JobRepository.mustQueries_eq, if_pos hl]
    simp [Query.locationGroup, Query.shouldGroup, Query.matchField]
  · simp [Query.wildcard, JSON.allKeys, JSON.allKeysList, JSON.allKeysMembers]

/-- C5, amended, at the location `Berlin` with no query and no skills. -/
theorem C5_location_group_shape_witness :
    ∃ front group rest,
      (JobRepository.searchQuery "" "Berlin" []).bind Query.mustOf =
        some (front ++ group :: rest) ∧
      group = JSON.obj [("bool", JSON.obj [
          ("should", JSON.arr [
            JSON.obj [("match", JSON.obj [("location", JSON.str "Berlin")])],
            Query.wildcard "location.keyword" ("*" ++ "Berlin" ++ "*") true]),
          ("minimum_should_match", JSON.num 1)])] ∧
      front = (if ("" : String) ≠ "" then [Query.textGroup ""] else []) ∧
      rest = (if ([] : List String) ≠ [] then [Query.skillsGroup []] else []) ∧
      (JSON.obj [("match", JSON.obj [("location", JSON.str "Berlin")])]).allKeys =
        ["match", "location"] ∧
      "fuzziness" ∉ group.allKeys :=
  C5_location_group_shape "" "Berlin" [] (by decide)

/-! ## Lemmas on the hit-decoding loop, the repository and the handler -/

namespace JobRepository

open JSON models

theorem decodeHits_acc {T : Type} (tm : TimePkg T) (hits : List JSON) (acc : List (Job T)) :
    decodeHits tm hits acc =
      match decodeHits tm hits [] with
      | .ok jobs => .ok (acc ++ jobs)
      | .error msg => .error msg
      | .panic => .panic := by
  induction hits generalizing acc with
  | nil => simp [decodeHits]
  | cons hit hits ih =>
    unfold decodeHits
    cases hd : decodeHit tm hit with
    | panics => simp
    | skips => simpa using ih acc
    | appends job =>
      simp only
      rw [ih (acc ++ [job]), ih ([] ++ [job])]
      cases decodeHits tm hits [] <;> simp

theorem decodeHits_cons {T : Type} (tm : TimePkg T) (hit : JSON) (hits : List JSON) :
    decodeHits tm (hit :: hits) [] =
      match decodeHit tm hit, decodeHits tm hits [] with
      | .panics, _ => .panic
      | .skips, r => r
      | .appends job, .ok jobs => .ok (job :: jobs)
      | .appends _, .error msg => .error msg
      | .appends _, .panic => .panic := by
  conv_lhs => unfold decodeHits
  cases hd : decodeHit tm hit with
  | panics => simp
  | skips => simp
  | appends job =>
    simp only
    rw [decodeHits_acc]
    cases decodeHits tm hits [] <;> simp

theorem decodeHits_eq_filterMap {T : Type} (tm : TimePkg T) (hits : List JSON)
    (h : ∀ hit ∈ hits, decodeHit tm hit ≠ .panics) :
    decodeHits tm hits [] = .ok (hits.filterMap (decoded tm)) := by
  induction hits with
  | nil => simp [decodeHits]
  | cons hit hits ih =>
    have h1 := h hit (List.mem_cons_self _ _)
    have h2 := ih (fun x hx => h x (List.mem_cons_of_mem _ hx))
    rw [decodeHits_cons, h2]
    cases hd : decodeHit tm hit with
    | panics => exact absurd hd h1
    | skips => simp [List.filterMap_cons, decoded, hd]
    | appends job => simp [List.filterMap_cons, decoded, hd]

theorem decodeHits_ok {T : Type} (tm : TimePkg T) (hits : List JSON) (jobs : List (Job T))
    (h : decodeHits tm hits [] = .ok jobs) :
    (∀ hit ∈ hits, decodeHit tm hit ≠ .panics) ∧ jobs = hits.filterMap (decoded tm) := by
  induction hits generalizing jobs with
  | nil =>
    simp only [decodeHits, Outcome.ok.injEq] at h
    simp [h]
  | cons hit hits ih =>
    rw [decodeHits_cons] at h
    cases hd : decodeHit tm hit with
    | panics => simp [hd] at h
    | skips =>
      simp only [hd] at h
      obtain ⟨h1, h2⟩ := ih jobs h
      refine ⟨?_, ?_⟩
      · intro x hx
        rcases List.mem_cons.mp hx with rfl | hx
        · simp [hd]
        · exact h1 x hx
      · simp [List.filterMap_cons, decoded, hd, h2]
    | appends job =>
      simp only [hd] at h
      cases hr : decodeHits tm hits [] with
      | panic => simp [hr] at h
      | error msg => simp [hr] at h
      | ok rest =>
        simp only [hr, Outcome.ok.injEq] at h
        obtain ⟨h1, h2⟩ := ih rest hr
        refine ⟨?_, ?_⟩
        · intro x hx
          rcases List.mem_cons.mp hx with rfl | hx
          · simp [hd]
          · exact h1 x hx
        · simp [List.filterMap_cons, decoded, hd, ← h2, h]

theorem searchQuery_isSome (q l : String) (s : List String) :
    ∃ body, searchQuery q l s = some body :=
  ⟨_, searchQuery_eq q l s⟩

theorem Search_of_repliesWith {T : Type} (tm : TimePkg T) (engine : Engine) (q l : String)
    (s : List String) (hits : List JSON) (h : RepliesWith engine q l s hits) :
    Search tm engine q l s = decodeHits tm hits [] := by
  obtain ⟨body, res, result, hitsMap, h1, h2, h3, h4, h5, h6⟩ := h
  simp [Search, h1, h2, h3, h4, h5, h6]

theorem Search_ok {T : Type} (tm : TimePkg T) (engine : Engine) (q l : String)
    (s : List String) (jobs : List (Job T)) (h : Search tm engine q l s = .ok jobs) :
    ∃ hits, RepliesWith engine q l s hits ∧ decodeHits tm hits [] = .ok jobs := by
  unfold Search at h
  split at h
  · simp at h
  · rename_i body hb
    split at h
    · simp at h
    · rename_i res hr
      split at h
      · simp at h
      · rename_i herr
        split at h
        · simp at h
        · rename_i result hres
          split at h
          · simp at h
          · rename_i hitsMap hm
            split at h
            · simp at h
            · rename_i hits hh
              exact ⟨hits, ⟨body, res, result, hitsMap, hb, hr, by simpa using herr, hres, hm,
                hh⟩, h⟩

theorem repliesWith_engineWithHits (q l : String) (s : List String) (hits : List JSON) :
    RepliesWith (engineWithHits hits) q l s hits := by
  obtain ⟨body, hb⟩ := searchQuery_isSome q l s
  exact ⟨body, _, [("hits", .obj [("hits", .arr hits)])], [("hits", .arr hits)], hb, rfl,
    rfl, rfl, rfl, rfl⟩

end JobRepository

namespace JobHandler

open models

theorem appendPbJobs_eq {T : Type} (tm : TimePkg T) (jobs : List (Job T)) (acc : List pb.Job) :
    appendPbJobs tm jobs acc = acc ++ jobs.map (toPb tm) := by
  induction jobs generalizing acc with
  | nil => simp [appendPbJobs]
  | cons job jobs ih => simp [appendPbJobs, ih]

theorem SearchJobs_of_ok {T : Type} (tm : TimePkg T) (engine : Engine)
    (req : pb.SearchJobsRequest) (jobs : List (Job T))
    (h : JobRepository.Search tm engine req.Query req.Location req.Skills = .ok jobs) :
    SearchJobs tm engine req =
      .ok { Jobs := jobs.map (toPb tm), Total := int32 (jobs.map (toPb tm)).length } := by
  simp [SearchJobs, JobService.SearchJobs, h, appendPbJobs_eq]

theorem SearchJobs_ok {T : Type} (tm : TimePkg T) (engine : Engine)
    (req : pb.SearchJobsRequest) (resp : pb.SearchJobsResponse)
    (h : SearchJobs tm engine req = .ok resp) :
    ∃ jobs, JobRepository.Search tm engine req.Query req.Location req.Skills = .ok jobs := by
  cases hs : JobRepository.Search tm engine req.Query req.Location req.Skills with
  | ok jobs => exact ⟨jobs, rfl⟩
  | error msg => simp [SearchJobs, JobService.SearchJobs, hs] at h
  | panic => simp [SearchJobs, JobService.SearchJobs, hs] at h

theorem int32_of_lt (n : Nat) (h : n < 2 ^ 31) : int32 (n : Int) = n := by
  unfold int32
  omega

theorem SearchJobs_of_hits {T : Type} (tm : TimePkg T) (engine : Engine)
    (req : pb.SearchJobsRequest) (hits : List JSON) (jobs : List (Job T))
    (hrep : JobRepository.RepliesWith engine req.Query req.Location req.Skills hits)
    (hd : JobRepository.decodeHits tm hits [] = .ok jobs) :
    ∃ resp, SearchJobs tm engine req = .ok resp ∧ resp.Jobs = jobs.map (toPb tm) ∧
      resp.Jobs.length = jobs.length ∧ resp.Total = int32 (jobs.length : Int) ∧
      (hits.length < 2 ^ 31 → resp.Total = (jobs.length : Int)) := by
  have hs : JobRepository.Search tm engine req.Query req.Location req.Skills = .ok jobs := by
    rw [JobRepository.Search_of_repliesWith tm engine _ _ _ hits hrep, hd]
  have hle : jobs.length ≤ hits.length := by
    rw [(JobRepository.decodeHits_ok tm hits jobs hd).2]
    exact List.length_filterMap_le _ _
  refine ⟨_, SearchJobs_of_ok tm engine req jobs hs, rfl, by simp, ?_, ?_⟩
  · show int32 _ = _
    rw [List.length_map]
  · intro hlt
    show int32 _ = _
    rw [List.length_map]
    exact int32_of_lt _ (by omega)

end JobHandler

/-! ## Lemmas on unmarshalling: a field with no member keeps its zero value -/

namespace json

open JSON models

theorem mem_insertMember (k : String) (v : JSON) (acc : List (String × JSON))
    (kv : String × JSON) (h : kv ∈ insertMember k v acc) : kv = (k, v) ∨ kv ∈ acc := by
  induction acc with
  | nil => simpa [insertMember] using h
  | cons a acc ih =>
    obtain ⟨k', v'⟩ := a
    unfold insertMember at h
    split at h
    · exact Or.inr h
    · split at h
      · rcases List.mem_cons.mp h with h | h
        · exact Or.inl h
        · exact Or.inr h
      · rcases List.mem_cons.mp h with h | h
        · exact Or.inr (h ▸ List.mem_cons_self _ _)
        · rcases ih h with h | h
          · exact Or.inl h
          · exact Or.inr (List.mem_cons_of_mem _ h)

theorem mem_foldl_insertMember (m acc : List (String × JSON)) (kv : String × JSON)
    (h : kv ∈ m.foldl (fun acc kv => insertMember kv.1 kv.2 acc) acc) : kv ∈ acc ∨ kv ∈ m := by
  induction m generalizing acc with
  | nil => exact Or.inl h
  | cons a m ih =>
    rcases ih _ h with h | h
    · rcases mem_insertMember _ _ _ _ h with h | h
      · exact Or.inr (h ▸ List.mem_cons_self _ _)
      · exact Or.inl h
    · exact Or.inr (List.mem_cons_of_mem _ h)

theorem mem_Marshal (m : List (String × JSON)) (kv : String × JSON) (h : kv ∈ Marshal m) :
    kv ∈ m := by
  rcases mem_foldl_insertMember m [] kv h with h | h
  · simp at h
  · exact h

theorem storeSkills_zeroAt {T : Type} (tm : TimePkg T) (t t' : Target T) (f : Field)
    (v : JSON) (h : storeSkills t v = some t') (hf : f ≠ .skills)
    (hz : Job.ZeroAt tm f t.job) : Job.ZeroAt tm f t'.job := by
  unfold storeSkills at h
  split at h
  · cases h; cases f <;> simp_all [Job.ZeroAt]
  · cases h; cases f <;> simp_all [Job.ZeroAt]
  · split at h
    · simp at h
    · cases h; cases f <;> simp_all [Job.ZeroAt]
  · simp at h

theorem storeField_zeroAt {T : Type} (tm : TimePkg T) (t t' : Target T) (f g : Field)
    (v : JSON) (h : storeField tm t g v = some t') (hf : g ≠ f)
    (hz : Job.ZeroAt tm f t.job) : Job.ZeroAt tm f t'.job := by
  cases g
  case skills => exact storeSkills_zeroAt tm t t' f v h (fun e => hf e.symm) hz
  all_goals
    simp only [storeField, Option.map_eq_some'] at h
    obtain ⟨x, -, rfl⟩ := h
    cases f <;> simp_all [Job.ZeroAt]

theorem storeMembers_zeroAt {T : Type} (tm : TimePkg T) (f : Field)
    (ms : List (String × JSON)) (t t' : Target T)
    (hl : ∀ kv ∈ ms, fieldOf kv.1 ≠ some f) (h : storeMembers tm t ms = some t')
    (hz : Job.ZeroAt tm f t.job) : Job.ZeroAt tm f t'.job := by
  induction ms generalizing t with
  | nil =>
    simp only [storeMembers, Option.some.injEq] at h
    exact h ▸ hz
  | cons kv ms ih =>
    unfold storeMembers at h
    split at h
    · simp at h
    · rename_i t₁ h₁
      refine ih t₁ (fun x hx => hl x (List.mem_cons_of_mem _ hx)) h ?_
      have hkv := hl kv (List.mem_cons_self _ _)
      unfold storeMember at h₁
      split at h₁
      · cases h₁; exact hz
      · rename_i g hg
        exact storeField_zeroAt tm t t₁ f g kv.2 h₁ (fun e => hkv (e ▸ hg)) hz

theorem zero_zeroAt {T : Type} (tm : TimePkg T) (f : Field) : Job.ZeroAt tm f (Job.zero tm) := by
  cases f <;> simp [Job.ZeroAt, Job.zero]

theorem storeString_eq_none (old : String) (v : JSON) :
    storeString old v = none ↔ acceptsString v = false := by
  cases v <;> simp [storeString, acceptsString]

theorem storeFloat64_eq_none (old : ℚ) (v : JSON) :
    storeFloat64 old v = none ↔ acceptsFloat64 v = false := by
  cases v <;> simp [storeFloat64, acceptsFloat64]

theorem storeTime_eq_none {T : Type} (tm : TimePkg T) (old : T) (v : JSON) :
    storeTime tm old v = none ↔ acceptsTime tm v = false := by
  cases v <;> simp [storeTime, acceptsTime]

theorem storeElems_eq_none (backing : List String) (xs : List JSON) :
    storeElems backing xs = none ↔ xs.all acceptsString = false := by
  induction xs generalizing backing with
  | nil => cases backing <;> simp [storeElems]
  | cons x xs ih =>
    cases backing with
    | nil =>
      unfold storeElems
      cases hx : storeString "" x with
      | none =>
        have := (storeString_eq_none "" x).mp hx
        simp [this]
      | some s =>
        have hx' : acceptsString x = true := by
          cases h : acceptsString x with
          | true => rfl
          | false => rw [(storeString_eq_none "" x).mpr h] at hx; cases hx
        cases hr : storeElems [] xs with
        | none =>
          have := (ih []).mp hr
          simp only [List.all_cons, hx', Bool.true_and]
          simpa using this
        | some r =>
          have : ¬ (xs.all acceptsString = false) := fun h => by
            rw [(ih []).mpr h] at hr; cases hr
          simp only [List.all_cons, hx', Bool.true_and]
          simpa using this
    | cons b backing =>
      unfold storeElems
      cases hx : storeString b x with
      | none =>
        have := (storeString_eq_none b x).mp hx
        simp [this]
      | some s =>
        have hx' : acceptsString x = true := by
          cases h : acceptsString x with
          | true => rfl
          | false => rw [(storeString_eq_none b x).mpr h] at hx; cases hx
        cases hr : storeElems backing xs with
        | none =>
          have := (ih backing).mp hr
          simp only [List.all_cons, hx', Bool.true_and]
          simpa using this
        | some r =>
          have : ¬ (xs.all acceptsString = false) := fun h => by
            rw [(ih backing).mpr h] at hr; cases hr
          simp only [List.all_cons, hx', Bool.true_and]
          simpa using this

theorem storeSkills_eq_none {T : Type} (t : Target T) (v : JSON) :
    storeSkills t v = none ↔ acceptsSkills v = false := by
  cases v with
  | arr xs =>
    cases xs with
    | nil => simp [storeSkills, acceptsSkills]
    | cons x xs =>
      cases hr : storeElems (t.job.Skills ++ t.spare) (x :: xs) with
      | none =>
        have h1 := (storeElems_eq_none _ _).mp hr
        have h2 : storeSkills t (arr (x :: xs)) = none := by simp [storeSkills, hr]
        simp only [h2, acceptsSkills, h1]
      | some r =>
        have h1 : (x :: xs).all acceptsString = true := by
          cases h : (x :: xs).all acceptsString with
          | true => rfl
          | false => rw [(storeElems_eq_none _ _).mpr h] at hr; cases hr
        have h2 : storeSkills t (arr (x :: xs)) ≠ none := by simp [storeSkills, hr]
        simp only [acceptsSkills, h1]
        simpa using h2
  | _ => simp [storeSkills, acceptsSkills]

theorem storeField_eq_none {T : Type} (tm : TimePkg T) (t : Target T) (g : Field) (v : JSON) :
    storeField tm t g v = none ↔ Accepts tm g v = false := by
  cases g <;>
    simp [storeField, Accepts, storeString_eq_none, storeFloat64_eq_none, storeTime_eq_none,
      storeSkills_eq_none]

theorem storeMembers_eq_none {T : Type} (tm : TimePkg T) (ms : List (String × JSON))
    (t : Target T) :
    storeMembers tm t ms = none ↔
      ∃ kv ∈ ms, ∃ g, fieldOf kv.1 = some g ∧ Accepts tm g kv.2 = false := by
  induction ms generalizing t with
  | nil => simp [storeMembers]
  | cons kv ms ih =>
    unfold storeMembers
    cases hk : fieldOf kv.1 with
    | none =>
      simp only [storeMember, hk, ih t]
      constructor
      · rintro ⟨x, hx, g, hg, ha⟩
        exact ⟨x, List.mem_cons_of_mem _ hx, g, hg, ha⟩
      · rintro ⟨x, hx, g, hg, ha⟩
        rcases List.mem_cons.mp hx with rfl | hx
        · rw [hk] at hg; cases hg
        · exact ⟨x, hx, g, hg, ha⟩
    | some g =>
      simp only [storeMember, hk]
      cases hs : storeField tm t g kv.2 with
      | none =>
        simp only [true_iff]
        exact ⟨kv, List.mem_cons_self _ _, g, hk, (storeField_eq_none tm t g kv.2).mp hs⟩
      | some t' =>
        have ha : Accepts tm g kv.2 = true := by
          cases h : Accepts tm g kv.2 with
          | true => rfl
          | false => rw [(storeField_eq_none tm t g kv.2).mpr h] at hs; cases hs
        simp only [ih t']
        constructor
        · rintro ⟨x, hx, g', hg, ha'⟩
          exact ⟨x, List.mem_cons_of_mem _ hx, g', hg, ha'⟩
        · rintro ⟨x, hx, g', hg, ha'⟩
          rcases List.mem_cons.mp hx with rfl | hx
          · rw [hk] at hg
            cases hg
            rw [ha] at ha'
            cases ha'
          · exact ⟨x, hx, g', hg, ha'⟩

theorem Unmarshal_eq_none {T : Type} (tm : TimePkg T) (source : List (String × JSON)) :
    Unmarshal tm source = none ↔
      ∃ kv ∈ Marshal source, ∃ g, fieldOf kv.1 = some g ∧ Accepts tm g kv.2 = false := by
  simp only [Unmarshal, Option.map_eq_none']
  exact storeMembers_eq_none tm (Marshal source) _

theorem Unmarshal_zeroAt {T : Type} (tm : TimePkg T) (f : Field)
    (source : List (String × JSON)) (job : Job T) (hl : Lacks f source)
    (h : Unmarshal tm source = some job) : Job.ZeroAt tm f job := by
  simp only [Unmarshal, Option.map_eq_some'] at h
  obtain ⟨t, ht, rfl⟩ := h
  exact storeMembers_zeroAt tm f (Marshal source) _ t
    (fun kv hkv => hl kv (mem_Marshal source kv hkv)) ht (zero_zeroAt tm f)

end json

/-! ## The result mapper: claims C6 to C10 -/

/-- C6, counterexample: the source document of this hit has no member for the field `id` (the
claim's own example), and yet `JobRepository.Search` returns the hit, as a Job whose `ID` is the
empty string, and `JobHandler.SearchJobs` reports a total of 1: the hit is not excluded. -/
theorem C6_hit_without_id_is_returned :
    models.Lacks .id [("title", JSON.str "Backend Engineer")] ∧
      JobRepository.Search textTime
          (engineWithHits [JSON.obj [("_source", JSON.obj [("title", JSON.str "Backend Engineer")]),
            ("_score", JSON.num 1)]]) "Backend" "" [] =
        .ok [{ models.Job.zero textTime with Title := "Backend Engineer", Score := 1 }] ∧
      JobHandler.SearchJobs textTime
          (engineWithHits [JSON.obj [("_source", JSON.obj [("title", JSON.str "Backend Engineer")]),
            ("_score", JSON.num 1)]]) { Query := "Backend", Location := "", Skills := [] } =
        .ok { Jobs := [{ Id := "", Title := "Backend Engineer", Description := "", Company := "",
                         Location := "", Skills := [], Salary := 0, CreatedAt := "0001-01-01",
                         Score := 0 }],
              Total := 1 } := by
  refine ⟨by decide, by decide, by decide⟩

/-- C6, amended: a hit whose source document has no member for a field `f` of Job does not make
the loop fail, and it is not excluded for that. The turn of the loop skips the hit exactly when
a member that is present (so a member of another field than `f`) holds a value that its field
does not accept. When every member that is present is accepted, `Unmarshal` returns a Job whose
field `f` has its zero value, the loop appends it between the documents of the hits before and
after it, and the response of the handler holds it and counts it in `Total`. When a member
that is present is not accepted, the documents and `Total` are those of the other hits. -/
theorem C6_missing_field_is_zero_valued {T : Type} (tm : TimePkg T) (f : models.Field)
    (pre post : List JSON) (hitMap source : List (String × JSON))
    (jobsPre jobsPost : List (models.Job T))
    (hsrc : JSON.index hitMap "_source" = JSON.obj source) (hlack : models.Lacks f source)
    (hpre : JobRepository.decodeHits tm pre [] = .ok jobsPre)
    (hpost : JobRepository.decodeHits tm post [] = .ok jobsPost) :
    JobRepository.decodeHit tm (JSON.obj hitMap) ≠ .panics ∧
      (JobRepository.decodeHit tm (JSON.obj hitMap) = .skips ↔
        ∃ kv ∈ json.Marshal source, ∃ g,
          json.fieldOf kv.1 = some g ∧ g ≠ f ∧ json.Accepts tm g kv.2 = false) ∧
      ((∀ kv ∈ json.Marshal source, ∀ g,
          json.fieldOf kv.1 = some g → json.Accepts tm g kv.2 = true) →
        ∃ stored job,
          json.Unmarshal tm source = some stored ∧ models.Job.ZeroAt tm f stored ∧
          JobRepository.decodeHit tm (JSON.obj hitMap) = .appends job ∧
          (f ≠ .score → models.Job.ZeroAt tm f job) ∧
          JobRepository.decodeHits tm (pre ++ JSON.obj hitMap :: post) [] =
            .ok (jobsPre ++ job :: jobsPost) ∧
          ∀ (engine : Engine) (req : pb.SearchJobsRequest),
            JobRepository.RepliesWith engine req.Query req.Location req.Skills
                (pre ++ JSON.obj hitMap :: post) →
              ∃ resp, JobHandler.SearchJobs tm engine req = .ok resp ∧
                resp.Jobs = (jobsPre ++ job :: jobsPost).map (JobHandler.toPb tm) ∧
                resp.Jobs.length = jobsPre.length + 1 + jobsPost.length ∧
                resp.Total = int32 ((jobsPre.length + 1 + jobsPost.length : Nat) : Int) ∧
                ((pre ++ JSON.obj hitMap :: post).length < 2 ^ 31 →
                  resp.Total = ((jobsPre.length + 1 + jobsPost.length : Nat) : Int))) ∧
      ((∃ kv ∈ json.Marshal source, ∃ g,
          json.fieldOf kv.1 = some g ∧ json.Accepts tm g kv.2 = false) →
        JobRepository.decodeHits tm (pre ++ JSON.obj hitMap :: post) [] =
            .ok (jobsPre ++ jobsPost) ∧
          ∀ (engine : Engine) (req : pb.SearchJobsRequest),
            JobRepository.RepliesWith engine req.Query req.Location req.Skills
                (pre ++ JSON.obj hitMap :: post) →
              ∃ resp, JobHandler.SearchJobs tm engine req = .ok resp ∧
                resp.Jobs = (jobsPre ++ jobsPost).map (JobHandler.toPb tm) ∧
                ((pre ++ JSON.obj hitMap :: post).length < 2 ^ 31 →
                  resp.Total = ((jobsPre.length + jobsPost.length : Nat) : Int))) := by
  obtain ⟨npre, epre⟩ := JobRepository.decodeHits_ok tm pre jobsPre hpre
  obtain ⟨npost, epost⟩ := JobRepository.decodeHits_ok tm post jobsPost hpost
  have hlpre : jobsPre.length ≤ pre.length := by
    rw [epre]; exact List.length_filterMap_le _ _
  have hlpost : jobsPost.length ≤ post.length := by
    rw [epost]; exact List.length_filterMap_le _ _
  have hlhits : (pre ++ JSON.obj hitMap :: post).length = pre.length + post.length + 1 := by
    simp only [List.length_append, List.length_cons]; omega
  have hnp : JobRepository.decodeHit tm (JSON.obj hitMap) ≠ .panics := by
    simp only [JobRepository.decodeHit, JSON.asMap, hsrc]
    cases json.Unmarshal tm source with
    | none => simp
    | some job => cases (JSON.index hitMap "_score").asFloat64 <;> simp
  have hskip : JobRepository.decodeHit tm (JSON.obj hitMap) = .skips ↔
      json.Unmarshal tm source = none := by
    simp only [JobRepository.decodeHit, JSON.asMap, hsrc]
    cases json.Unmarshal tm source with
    | none => simp
    | some job => cases (JSON.index hitMap "_score").asFloat64 <;> simp
  have hall : ∀ hit ∈ pre ++ JSON.obj hitMap :: post,
      JobRepository.decodeHit tm hit ≠ .panics := by
    intro hit hmem
    rcases List.mem_append.mp hmem with h | h
    · exact npre hit h
    · rcases List.mem_cons.mp h with h | h
      · exact h ▸ hnp
      · exact npost hit h
  have hloop := JobRepository.decodeHits_eq_filterMap tm _ hall
  rw [List.filterMap_append, List.filterMap_cons, ← epre, ← epost] at hloop
  refine ⟨hnp, ?_, ?_, ?_⟩
  · rw [hskip, json.Unmarshal_eq_none]
    constructor
    · rintro ⟨kv, hkv, g, hg, ha⟩
      refine ⟨kv, hkv, g, hg, ?_, ha⟩
      intro hgf
      exact hlack kv (json.mem_Marshal source kv hkv) (hgf ▸ hg)
    · rintro ⟨kv, hkv, g, hg, -, ha⟩
      exact ⟨kv, hkv, g, hg, ha⟩
  · intro hacc
    have hsome : json.Unmarshal tm source ≠ none := by
      intro hn
      obtain ⟨kv, hkv, g, hg, ha⟩ := (json.Unmarshal_eq_none tm source).mp hn
      rw [hacc kv hkv g hg] at ha
      cases ha
    obtain ⟨stored, hst⟩ := Option.ne_none_iff_exists'.mp hsome
    have hz := json.Unmarshal_zeroAt tm f source stored hlack hst
    cases hsc : (JSON.index hitMap "_score").asFloat64 with
    | none =>
      have hd : JobRepository.decodeHit tm (JSON.obj hitMap) = .appends stored := by
        simp [JobRepository.decodeHit, JSON.asMap, hsrc, hst, hsc]
      have hl : JobRepository.decodeHits tm (pre ++ JSON.obj hitMap :: post) [] =
          .ok (jobsPre ++ stored :: jobsPost) := by
        simpa [JobRepository.decoded, hd] using hloop
      refine ⟨stored, stored, hst, hz, hd, fun _ => hz, hl, ?_⟩
      intro engine req hrep
      obtain ⟨resp, h1, h2, h3, h4, -⟩ :=
        JobHandler.SearchJobs_of_hits tm engine req _ _ hrep hl
      have hlen : (jobsPre ++ stored :: jobsPost).length =
          jobsPre.length + 1 + jobsPost.length := by
        simp only [List.length_append, List.length_cons]; omega
      rw [hlen] at h3 h4
      refine ⟨resp, h1, h2, h3, h4, ?_⟩
      intro hlt
      rw [h4]
      unfold int32
      omega
    | some score =>
      have hd : JobRepository.decodeHit tm (JSON.obj hitMap) =
          .appends { stored with Score := score } := by
        simp [JobRepository.decodeHit, JSON.asMap, hsrc, hst, hsc]
      have hl : JobRepository.decodeHits tm (pre ++ JSON.obj hitMap :: post) [] =
          .ok (jobsPre ++ { stored with Score := score } :: jobsPost) := by
        simpa [JobRepository.decoded, hd] using hloop
      refine ⟨stored, _, hst, hz, hd, ?_, hl, ?_⟩
      · intro hf
        cases f <;> simp_all [models.Job.ZeroAt]
      · intro engine req hrep
        obtain ⟨resp, h1, h2, h3, h4, -⟩ :=
          JobHandler.SearchJobs_of_hits tm engine req _ _ hrep hl
        have hlen : (jobsPre ++ { stored with Score := score } :: jobsPost).length =
            jobsPre.length + 1 + jobsPost.length := by
          simp only [List.length_append, List.length_cons]; omega
        rw [hlen] at h3 h4
        refine ⟨resp, h1, h2, h3, h4, ?_⟩
        intro hlt
        rw [h4]
        unfold int32
        omega
  · intro hrej
    have hst := (json.Unmarshal_eq_none tm source).mpr hrej
    have hd := hskip.mpr hst
    have hl : JobRepository.decodeHits tm (pre ++ JSON.obj hitMap :: post) [] =
        .ok (jobsPre ++ jobsPost) := by
      simpa [JobRepository.decoded, hd] using hloop
    refine ⟨hl, ?_⟩
    intro engine req hrep
    obtain ⟨resp, h1, h2, -, h4, -⟩ :=
      JobHandler.SearchJobs_of_hits tm engine req _ _ hrep hl
    have hlen : (jobsPre ++ jobsPost).length = jobsPre.length + jobsPost.length :=
      List.length_append _ _
    rw [hlen] at h4
    refine ⟨resp, h1, h2, ?_⟩
    intro hlt
    rw [h4]
    unfold int32
    omega

/-- C6, amended, at a hit with no `id` that follows a hit that decodes and precedes a hit that
is skipped: the response holds two documents, the second with the empty `Id`, and its `Total`
is 2. -/
theorem C6_missing_field_is_zero_valued_witness :
    JobRepository.decodeHit textTime
        (JSON.obj [("_source", JSON.obj [("title", JSON.str "Backend Engineer")])]) ≠ .panics ∧
      ∃ resp,
        JobHandler.SearchJobs textTime
            (engineWithHits
              [JSON.obj [("_source", JSON.obj [("id", JSON.str "1")])],
               JSON.obj [("_source", JSON.obj [("title", JSON.str "Backend Engineer")])],
               JSON.obj [("_source", JSON.obj [("salary", JSON.str "high")])]])
            { Query := "", Location := "", Skills := [] } = .ok resp ∧
          resp.Jobs.map (fun j => (j.Id, j.Title)) = [("1", ""), ("", "Backend Engineer")] ∧
          resp.Total = 2 :=
  have h := C6_missing_field_is_zero_valued textTime .id
    [JSON.obj [("_source", JSON.obj [("id", JSON.str "1")])]]
    [JSON.obj [("_source", JSON.obj [("salary", JSON.str "high")])]]
    [("_source", JSON.obj [("title", JSON.str "Backend Engineer")])]
    [("title", JSON.str "Backend Engineer")]
    [{ models.Job.zero textTime with ID := "1" }] []
    rfl (by decide) (by decide) (by decide)
  ⟨h.1, by
    have hacc : ∀ kv ∈ json.Marshal [("title", JSON.str "Backend Engineer")], ∀ g,
        json.fieldOf kv.1 = some g → json.Accepts textTime g kv.2 = true := by
      intro kv hkv g hg
      have hM : json.Marshal [("title", JSON.str "Backend Engineer")] =
          [("title", JSON.str "Backend Engineer")] := rfl
      rw [hM, List.mem_singleton] at hkv
      subst hkv
      have ht : json.fieldOf "title" = some models.Field.title := by decide
      rw [ht] at hg
      cases hg
      rfl
    obtain ⟨stored, job, hst, -, hd, -, -, hresp⟩ := h.2.2.1 hacc
    have hst' : json.Unmarshal textTime [("title", JSON.str "Backend Engineer")] =
        some { models.Job.zero textTime with Title := "Backend Engineer" } := by decide
    have hd' : JobRepository.decodeHit textTime
        (JSON.obj [("_source", JSON.obj [("title", JSON.str "Backend Engineer")])]) =
        .appends { models.Job.zero textTime with Title := "Backend Engineer" } := by decide
    rw [hd'] at hd
    have hj := JobRepository.Turn.appends.inj hd
    subst hj
    obtain ⟨resp, h1, h2, -, -, h5⟩ := hresp _ { Query := "", Location := "", Skills := [] }
      (JobRepository.repliesWith_engineWithHits "" "" [] _)
    have heval : JobHandler.SearchJobs textTime
        (engineWithHits
          [JSON.obj [("_source", JSON.obj [("id", JSON.str "1")])],
           JSON.obj [("_source", JSON.obj [("title", JSON.str "Backend Engineer")])],
           JSON.obj [("_source", JSON.obj [("salary", JSON.str "high")])]])
        { Query := "", Location := "", Skills := [] } =
        .ok { Jobs := [JobHandler.toPb textTime { models.Job.zero textTime with ID := "1" },
                JobHandler.toPb textTime
                  { models.Job.zero textTime with Title := "Backend Engineer" }],
              Total := 2 } := by decide
    refine ⟨resp, h1, ?_, ?_⟩
    · rw [h2]
      rfl
    · rw [← Outcome.ok.inj (heval.symm.trans h1)]⟩

/-- C7, counterexample: the source document of these two hits has a member `score` of value 5
and the engine reports no score (`_score` is null in the first hit and absent in the second);
the decoded Job has `Score` 5, which is not 0.0. -/
theorem C7_source_score_survives_missing_engine_score :
    JobRepository.decodeHit textTime
        (JSON.obj [("_source", JSON.obj [("title", JSON.str "Backend Engineer"),
          ("score", JSON.num 5)]), ("_score", JSON.null)]) =
        .appends { models.Job.zero textTime with Title := "Backend Engineer", Score := 5 } ∧
      JobRepository.decodeHit textTime
        (JSON.obj [("_source", JSON.obj [("title", JSON.str "Backend Engineer"),
          ("score", JSON.num 5)])]) =
        .appends { models.Job.zero textTime with Title := "Backend Engineer", Score := 5 } ∧
      ({ models.Job.zero textTime with Title := "Backend Engineer", Score := 5 } :
        models.Job String).Score ≠ 0 := by
  refine ⟨by decide, by decide, by decide⟩

/-- C7, amended: for every hit that the loop decodes, the hit is an object whose `_source` is an
object that `Unmarshal` stored into a Job; when `_score` is a number the resulting Job is the
stored Job with `Score` set to that number, and when `_score` is not a number (absent, null or
of another type) the resulting Job is the stored Job unchanged, so its `Score` is what
`Unmarshal` stored from the source document, which is 0.0 when the source document has no
member for the field `score`. -/
theorem C7_score_attached_or_kept {T : Type} (tm : TimePkg T) (hit : JSON)
    (job : models.Job T) (h : JobRepository.decodeHit tm hit = .appends job) :
    ∃ hitMap source stored,
      hit = JSON.obj hitMap ∧ JSON.index hitMap "_source" = JSON.obj source ∧
      json.Unmarshal tm source = some stored ∧
      (∀ s, JSON.index hitMap "_score" = JSON.num s →
        job = { stored with Score := s } ∧ job.Score = s) ∧
      ((∀ s, JSON.index hitMap "_score" ≠ JSON.num s) →
        job = stored ∧ (models.Lacks .score source → job.Score = 0)) := by
  cases hit with
  | obj hitMap =>
    cases hsrc : JSON.index hitMap "_source" with
    | obj source =>
      cases hst : json.Unmarshal tm source with
      | none => simp [JobRepository.decodeHit, JSON.asMap, hsrc, hst] at h
      | some stored =>
        refine ⟨hitMap, source, stored, rfl, hsrc, hst, ?_, ?_⟩
        · intro s hs
          simp only [JobRepository.decodeHit, JSON.asMap, hsrc, hst, hs, JSON.asFloat64,
            JobRepository.Turn.appends.injEq] at h
          subst h
          exact ⟨rfl, rfl⟩
        · intro hs
          have hnone : (JSON.index hitMap "_score").asFloat64 = none := by
            cases hv : JSON.index hitMap "_score" with
            | num s => exact absurd hv (hs s)
            | _ => rfl
          simp only [JobRepository.decodeHit, JSON.asMap, hsrc, hst, hnone,
            JobRepository.Turn.appends.injEq] at h
          subst h
          exact ⟨rfl, fun hl => json.Unmarshal_zeroAt tm .score source _ hl hst⟩
    | null => simp [JobRepository.decodeHit, JSON.asMap, hsrc] at h
    | bool b => simp [JobRepository.decodeHit, JSON.asMap, hsrc] at h
    | num x => simp [JobRepository.decodeHit, JSON.asMap, hsrc] at h
    | str s => simp [JobRepository.decodeHit, JSON.asMap, hsrc] at h
    | arr xs => simp [JobRepository.decodeHit, JSON.asMap, hsrc] at h
  | null => simp [JobRepository.decodeHit, JSON.asMap] at h
  | bool b => simp [JobRepository.decodeHit, JSON.asMap] at h
  | num x => simp [JobRepository.decodeHit, JSON.asMap] at h
  | str s => simp [JobRepository.decodeHit, JSON.asMap] at h
  | arr xs => simp [JobRepository.decodeHit, JSON.asMap] at h

/-- C7, amended, at a hit with the engine score 3 and a source document that has a `score`. -/
theorem C7_score_attached_or_kept_witness :
    ∃ hitMap source stored,
      JSON.obj [("_source", JSON.obj [("score", JSON.num 5)]), ("_score", JSON.num 3)] =
        JSON.obj hitMap ∧
      JSON.index hitMap "_source" = JSON.obj source ∧
      json.Unmarshal textTime source = some stored ∧
      (∀ s, JSON.index hitMap "_score" = JSON.num s →
        { models.Job.zero textTime with Score := 3 } = { stored with Score := s } ∧
          ({ models.Job.zero textTime with Score := 3 } : models.Job String).Score = s) ∧
      ((∀ s, JSON.index hitMap "_score" ≠ JSON.num s) →
        { models.Job.zero textTime with Score := 3 } = stored ∧
          (models.Lacks .score source →
            ({ models.Job.zero textTime with Score := 3 } : models.Job String).Score = 0)) :=
  C7_score_attached_or_kept textTime
    (JSON.obj [("_source", JSON.obj [("score", JSON.num 5)]), ("_score", JSON.num 3)])
    { models.Job.zero textTime with Score := 3 } (by decide)

/-- C8, the code at a failing input: the engine reports the score 3 for the one hit, the
repository returns the Job with `Score` 3, and the response of `JobHandler.SearchJobs` carries
that document with `Score` 0: the composite literal of the handler does not set `Score`. -/
theorem C8_handler_drops_score :
    JobRepository.Search textTime
        (engineWithHits [JSON.obj [("_source", JSON.obj [("id", JSON.str "1"),
          ("title", JSON.str "Backend Engineer")]), ("_score", JSON.num 3)]]) "Backend" "" [] =
        .ok [{ models.Job.zero textTime with
               ID := "1", Title := "Backend Engineer", Score := 3 }] ∧
      JobHandler.SearchJobs textTime
          (engineWithHits [JSON.obj [("_source", JSON.obj [("id", JSON.str "1"),
            ("title", JSON.str "Backend Engineer")]), ("_score", JSON.num 3)]])
          { Query := "Backend", Location := "", Skills := [] } =
        .ok { Jobs := [{ Id := "1", Title := "Backend Engineer", Description := "",
                         Company := "", Location := "", Skills := [], Salary := 0,
                         CreatedAt := "0001-01-01", Score := 0 }],
              Total := 1 } ∧
      (∀ job : models.Job String, (JobHandler.toPb textTime job).Score = 0) := by
  refine ⟨by decide, by decide, fun _ => rfl⟩

/-- C9: for every sequence of engine hits, the documents that the loop returns are the
order-preserving filter-map of the hits by the per-hit decoding: if two hits decode, with any
hits before, between and after them, the document of the earlier hit precedes the document of
the later one; the documents are at most as many as the hits. The loop returns whenever no turn
panics, and `JobRepository.Search` returns these documents for the hit list of the engine's
response. -/
theorem C9_documents_are_filter_map_of_hits {T : Type} (tm : TimePkg T) (hits : List JSON) :
    ((∀ hit ∈ hits, JobRepository.decodeHit tm hit ≠ .panics) →
      JobRepository.decodeHits tm hits [] =
        .ok (hits.filterMap (JobRepository.decoded tm))) ∧
    (∀ jobs, JobRepository.decodeHits tm hits [] = .ok jobs →
      jobs = hits.filterMap (JobRepository.decoded tm) ∧ jobs.length ≤ hits.length ∧
      ∀ a b c h₁ h₂ j₁ j₂, hits = a ++ h₁ :: b ++ h₂ :: c →
        JobRepository.decoded tm h₁ = some j₁ → JobRepository.decoded tm h₂ = some j₂ →
        jobs = a.filterMap (JobRepository.decoded tm) ++ j₁ ::
          b.filterMap (JobRepository.decoded tm) ++ j₂ ::
          c.filterMap (JobRepository.decoded tm)) ∧
    (∀ (engine : Engine) (q l : String) (s : List String) (jobs : List (models.Job T)),
      JobRepository.RepliesWith engine q l s hits →
        JobRepository.Search tm engine q l s = .ok jobs →
        jobs = hits.filterMap (JobRepository.decoded tm)) := by
  refine ⟨JobRepository.decodeHits_eq_filterMap tm hits, ?_, ?_⟩
  · intro jobs hj
    obtain ⟨-, he⟩ := JobRepository.decodeHits_ok tm hits jobs hj
    refine ⟨he, ?_, ?_⟩
    · rw [he]; exact List.length_filterMap_le _ _
    · intro a b c h₁ h₂ j₁ j₂ hh e₁ e₂
      rw [he, hh]
      simp [List.filterMap_append, List.filterMap_cons, e₁, e₂]
  · intro engine q l s jobs hrep hs
    rw [JobRepository.Search_of_repliesWith tm engine q l s hits hrep] at hs
    exact (JobRepository.decodeHits_ok tm hits jobs hs).2

/-- C9, at three hits of which the second is skipped. -/
theorem C9_documents_are_filter_map_of_hits_witness :
    JobRepository.decodeHits textTime
        [JSON.obj [("_source", JSON.obj [("id", JSON.str "low")]), ("_score", JSON.num 1)],
         JSON.obj [("_source", JSON.obj [("id", JSON.num 7)]), ("_score", JSON.num 9)],
         JSON.obj [("_source", JSON.obj [("id", JSON.str "high")]), ("_score", JSON.num 5)]] [] =
      .ok ([JSON.obj [("_source", JSON.obj [("id", JSON.str "low")]), ("_score", JSON.num 1)],
         JSON.obj [("_source", JSON.obj [("id", JSON.num 7)]), ("_score", JSON.num 9)],
         JSON.obj [("_source", JSON.obj [("id", JSON.str "high")]),
           ("_score", JSON.num 5)]].filterMap (JobRepository.decoded textTime)) :=
  (C9_documents_are_filter_map_of_hits textTime _).1 (by decide)

/-- C10: for every successful search, where the engine's response carries the hit list `hits`
and a response page holds fewer than 2^31 hits (the length of a page is a 32-bit integer), the
documents of the response of `JobHandler.SearchJobs` are the Jobs that the repository decoded
from `hits` (the hits that were skipped left out), converted one by one in the same order, and
`Total` equals the number of documents in the response, which equals the number of hits that
were decoded. -/
theorem C10_total_is_document_count {T : Type} (tm : TimePkg T) (engine : Engine)
    (req : pb.SearchJobsRequest) (resp : pb.SearchJobsResponse) (hits : List JSON)
    (h : JobHandler.SearchJobs tm engine req = .ok resp)
    (hrep : JobRepository.RepliesWith engine req.Query req.Location req.Skills hits)
    (hpage : hits.length < 2 ^ 31) :
    ∃ jobs,
      JobRepository.Search tm engine req.Query req.Location req.Skills = .ok jobs ∧
      JobService.SearchJobs tm engine req.Query req.Location req.Skills = .ok jobs ∧
      jobs = hits.filterMap (JobRepository.decoded tm) ∧
      resp.Jobs = jobs.map (JobHandler.toPb tm) ∧
      resp.Total = (resp.Jobs.length : Int) ∧
      resp.Jobs.length = jobs.length ∧
      resp.Total = ((hits.filterMap (JobRepository.decoded tm)).length : Int) ∧
      resp.Total = int32 (resp.Jobs.length : Int) := by
  obtain ⟨jobs, hs⟩ := JobHandler.SearchJobs_ok tm engine req resp h
  have hl : JobRepository.decodeHits tm hits [] = .ok jobs := by
    rw [← JobRepository.Search_of_repliesWith tm engine _ _ _ hits hrep, hs]
  have he := (JobRepository.decodeHits_ok tm hits jobs hl).2
  obtain ⟨resp', h1, h2, h3, h4, h5⟩ :=
    JobHandler.SearchJobs_of_hits tm engine req hits jobs hrep hl
  rw [h] at h1
  have hr := Outcome.ok.inj h1
  subst hr
  have hle : jobs.length ≤ hits.length := by
    rw [he]; exact List.length_filterMap_le _ _
  have h5' : resp.Total = (jobs.length : Int) := by
    rw [h4]
    unfold int32
    omega
  refine ⟨jobs, hs, by simp [JobService.SearchJobs, hs], he, h2, ?_, h3, ?_, ?_⟩
  · rw [h5', h3]
  · rw [h5', he]
  · rw [h3]; exact h4

/-- C10, at a response of three hits of which the second is skipped: two documents, `Total`
2. -/
theorem C10_total_is_document_count_witness :
    ∃ jobs,
      JobRepository.Search textTime
        (engineWithHits [JSON.obj [("_source", JSON.obj [("id", JSON.str "a")])],
          JSON.obj [("_source", JSON.obj [("id", JSON.num 7)])],
          JSON.obj [("_source", JSON.obj [("id", JSON.str "b")])]]) "" "" [] = .ok jobs ∧
      JobService.SearchJobs textTime
        (engineWithHits [JSON.obj [("_source", JSON.obj [("id", JSON.str "a")])],
          JSON.obj [("_source", JSON.obj [("id", JSON.num 7)])],
          JSON.obj [("_source", JSON.obj [("id", JSON.str "b")])]]) "" "" [] = .ok jobs ∧
      jobs = [JSON.obj [("_source", JSON.obj [("id", JSON.str "a")])],
          JSON.obj [("_source", JSON.obj [("id", JSON.num 7)])],
          JSON.obj [("_source", JSON.obj [("id", JSON.str "b")])]].filterMap
            (JobRepository.decoded textTime) ∧
      [JobHandler.toPb textTime { models.Job.zero textTime with ID := "a" },
        JobHandler.toPb textTime { models.Job.zero textTime with ID := "b" }] =
        jobs.map (JobHandler.toPb textTime) ∧
      (2 : Int) = (([JobHandler.toPb textTime { models.Job.zero textTime with ID := "a" },
        JobHandler.toPb textTime { models.Job.zero textTime with ID := "b" }].length : Nat) :
          Int) ∧
      [JobHandler.toPb textTime { models.Job.zero textTime with ID := "a" },
        JobHandler.toPb textTime { models.Job.zero textTime with ID := "b" }].length =
        jobs.length ∧
      (2 : Int) = (([JSON.obj [("_source", JSON.obj [("id", JSON.str "a")])],
          JSON.obj [("_source", JSON.obj [("id", JSON.num 7)])],
          JSON.obj [("_source", JSON.obj [("id", JSON.str "b")])]].filterMap
            (JobRepository.decoded textTime)).length : Int) ∧
      (2 : Int) = int32 (([JobHandler.toPb textTime { models.Job.zero textTime with ID := "a" },
        JobHandler.toPb textTime { models.Job.zero textTime with ID := "b" }].length : Nat) :
          Int) :=
  C10_total_is_document_count textTime
    (engineWithHits [JSON.obj [("_source", JSON.obj [("id", JSON.str "a")])],
      JSON.obj [("_source", JSON.obj [("id", JSON.num 7)])],
      JSON.obj [("_source", JSON.obj [("id", JSON.str "b")])]])
    { Query := "", Location := "", Skills := [] }
    { Jobs := [JobHandler.toPb textTime { models.Job.zero textTime with ID := "a" },
        JobHandler.toPb textTime { models.Job.zero textTime with ID := "b" }],
      Total := 2 }
    [JSON.obj [("_source", JSON.obj [("id", JSON.str "a")])],
      JSON.obj [("_source", JSON.obj [("id", JSON.num 7)])],
      JSON.obj [("_source", JSON.obj [("id", JSON.str "b")])]]
    (by decide) (JobRepository.repliesWith_engineWithHits "" "" [] _) (by decide)

/-! ## Lemmas on error messages -/

namespace JobRepository

open JSON models

theorem notFound_ne_append (p t : String) (c : Char) (cs : List Char) (hp : p.data = c :: cs)
    (hc : c ≠ 'j') : "job not found" ≠ p ++ t := by
  intro h
  have h' := congrArg (fun s => s.data.head?) h
  simp [String.data_append, hp] at h'
  exact hc h'.symm

theorem append_left_cancel (p a b : String) (h : p ++ a = p ++ b) : a = b := by
  have h' := congrArg String.data h
  simp only [String.data_append, List.append_cancel_left_eq] at h'
  exact String.ext h'

theorem GetByID_notFound_iff {T : Type} (tm : TimePkg T)
    (jsonError : List (String × JSON) → String) (get : PointCall) (id : String) :
    GetByID tm jsonError get id = .error "job not found" ↔
      ∃ res, get id = .ok res ∧ res.IsError = true ∧ res.StatusCode = 404 := by
  constructor
  · intro h
    unfold GetByID at h
    split at h
    · rename_i err _
      simp only [Outcome.error.injEq] at h
      exact absurd h.symm (notFound_ne_append _ _ 'e' _ rfl (by decide))
    · rename_i res hres
      split at h
      · rename_i herr
        split at h
        · rename_i h404
          exact ⟨res, hres, herr, h404⟩
        · simp only [Outcome.error.injEq] at h
          exact absurd h.symm (notFound_ne_append _ _ 'e' _ rfl (by decide))
      · split at h
        · simp only [Outcome.error.injEq] at h
          exact absurd h.symm (notFound_ne_append _ _ 'e' _ rfl (by decide))
        · split at h
          · simp at h
          · split at h
            · simp only [Outcome.error.injEq] at h
              exact absurd h.symm (notFound_ne_append _ _ 'e' _ rfl (by decide))
            · simp at h
  · rintro ⟨res, hres, herr, h404⟩
    simp [GetByID, hres, herr, h404]

theorem Delete_notFound_iff (del : PointCall) (id : String) :
    Delete del id = .error "job not found" ↔
      ∃ res, del id = .ok res ∧ res.IsError = true ∧ res.StatusCode = 404 := by
  constructor
  · intro h
    unfold Delete at h
    split at h
    · simp only [Outcome.error.injEq] at h
      exact absurd h.symm (notFound_ne_append _ _ 'e' _ rfl (by decide))
    · rename_i res hres
      split at h
      · rename_i herr
        split at h
        · rename_i h404
          exact ⟨res, hres, herr, h404⟩
        · simp only [Outcome.error.injEq] at h
          exact absurd h.symm (notFound_ne_append _ _ 'e' _ rfl (by decide))
      · simp at h
  · rintro ⟨res, hres, herr, h404⟩
    simp [Delete, hres, herr, h404]

end JobRepository

namespace JobService

theorem GetJob_notFound_iff {T : Type} (tm : TimePkg T)
    (jsonError : List (String × JSON) → String) (get : JobRepository.PointCall) (id : String) :
    GetJob tm jsonError get id = .error ("failed to get job: " ++ "job not found") ↔
      JobRepository.GetByID tm jsonError get id = .error "job not found" := by
  unfold GetJob
  cases JobRepository.GetByID tm jsonError get id with
  | ok job => simp
  | panic => simp
  | error msg =>
    simp only [Outcome.error.injEq]
    exact ⟨JobRepository.append_left_cancel _ _ _, fun h => by rw [h]⟩

theorem DeleteJob_notFound_iff (del : JobRepository.PointCall) (id : String) :
    DeleteJob del id = .error ("failed to delete job: " ++ "job not found") ↔
      JobRepository.Delete del id = .error "job not found" := by
  unfold DeleteJob
  cases JobRepository.Delete del id with
  | ok u => simp
  | panic => simp
  | error msg =>
    simp only [Outcome.error.injEq]
    exact ⟨JobRepository.append_left_cancel _ _ _, fun h => by rw [h]⟩

end JobService

/-! ## Point operations and the safety of the loop: claims C11 and C12 -/

/-- C11, counterexample: the engine answers the get with the success status 200, and
`JobRepository.GetByID` returns an error all the same: an unmarshalling error when the source
document holds a number in `title`, and a parsing error when the body is not JSON. -/
theorem C11_get_fails_on_success_status :
    Response.IsError
        { StatusCode := 200, text := "[200 OK]",
          body := .ok (JSON.obj [("_source", JSON.obj [("title", JSON.num 5)])]) } = false ∧
      JobRepository.GetByID textTime typeErrorText
          (answering
            { StatusCode := 200, text := "[200 OK]",
              body := .ok (JSON.obj [("_source", JSON.obj [("title", JSON.num 5)])]) }) "1" =
        .error ("error unmarshaling job: " ++
          typeErrorText [("title", JSON.num 5)]) ∧
      JobRepository.GetByID textTime typeErrorText
          (answering
            { StatusCode := 200, text := "[200 OK]",
              body := .error "unexpected end of JSON input" }) "1" =
        .error "error parsing response: unexpected end of JSON input" := by
  refine ⟨by decide, by decide, by decide⟩

/-- C11, amended: for `JobRepository.GetByID` and `JobRepository.Delete` alike, the operation
fails with the error `job not found` exactly when the engine's response is an error with status
404 (and every response with status 404 is an error); for every other error status it fails
with an engine error that carries the text of the response; the service layer wraps both, and
its error is the wrapped `job not found` exactly in the same case, so the two stay apart. For a
success status `Delete` and `DeleteJob` return no error, and `GetByID` returns a parsing error
when the body does not decode and, when `_source` is an object, the Job that `Unmarshal` stores
from it or else an unmarshalling error. -/
theorem C11_not_found_exactly_at_status_404 {T : Type} (tm : TimePkg T)
    (jsonError : List (String × JSON) → String) (get del : JobRepository.PointCall)
    (id : String) :
    (JobRepository.GetByID tm jsonError get id = .error "job not found" ↔
      ∃ res, get id = .ok res ∧ res.IsError = true ∧ res.StatusCode = 404) ∧
    (JobRepository.Delete del id = .error "job not found" ↔
      ∃ res, del id = .ok res ∧ res.IsError = true ∧ res.StatusCode = 404) ∧
    (JobService.GetJob tm jsonError get id = .error ("failed to get job: " ++ "job not found") ↔
      ∃ res, get id = .ok res ∧ res.IsError = true ∧ res.StatusCode = 404) ∧
    (JobService.DeleteJob del id = .error ("failed to delete job: " ++ "job not found") ↔
      ∃ res, del id = .ok res ∧ res.IsError = true ∧ res.StatusCode = 404) ∧
    (∀ res : Response, res.StatusCode = 404 → res.IsError = true) ∧
    (∀ res, get id = .ok res → res.IsError = true → res.StatusCode ≠ 404 →
      JobRepository.GetByID tm jsonError get id =
          .error ("error getting document: " ++ res.text) ∧
        JobService.GetJob tm jsonError get id =
          .error ("failed to get job: " ++ ("error getting document: " ++ res.text)) ∧
        "job not found" ≠ "error getting document: " ++ res.text) ∧
    (∀ res, del id = .ok res → res.IsError = true → res.StatusCode ≠ 404 →
      JobRepository.Delete del id = .error ("error deleting document: " ++ res.text) ∧
        JobService.DeleteJob del id =
          .error ("failed to delete job: " ++ ("error deleting document: " ++ res.text)) ∧
        "job not found" ≠ "error deleting document: " ++ res.text) ∧
    (∀ res, del id = .ok res → res.IsError = false →
      JobRepository.Delete del id = .ok () ∧ JobService.DeleteJob del id = .ok ()) ∧
    (∀ res, get id = .ok res → res.IsError = false →
      (∀ e, JobRepository.decodeResult res.body = .error e →
        JobRepository.GetByID tm jsonError get id =
          .error ("error parsing response: " ++ e)) ∧
      (∀ result source, JobRepository.decodeResult res.body = .ok result →
        JSON.index result "_source" = JSON.obj source →
        JobRepository.GetByID tm jsonError get id =
          match json.Unmarshal tm source with
          | some job => .ok job
          | none => .error ("error unmarshaling job: " ++ jsonError source))) := by
  refine ⟨JobRepository.GetByID_notFound_iff tm jsonError get id,
    JobRepository.Delete_notFound_iff del id,
    (JobService.GetJob_notFound_iff tm jsonError get id).trans
      (JobRepository.GetByID_notFound_iff tm jsonError get id),
    (JobService.DeleteJob_notFound_iff del id).trans (JobRepository.Delete_notFound_iff del id),
    ?_, ?_, ?_, ?_, ?_⟩
  · intro res h
    simp [Response.IsError, h]
  · intro res hres herr h404
    refine ⟨?_, ?_, JobRepository.notFound_ne_append _ _ 'e' _ rfl (by decide)⟩
    · simp [JobRepository.GetByID, hres, herr, h404]
    · simp [JobService.GetJob, JobRepository.GetByID, hres, herr, h404]
  · intro res hres herr h404
    refine ⟨?_, ?_, JobRepository.notFound_ne_append _ _ 'e' _ rfl (by decide)⟩
    · simp [JobRepository.Delete, hres, herr, h404]
    · simp [JobService.DeleteJob, JobRepository.Delete, hres, herr, h404]
  · intro res hres herr
    constructor
    · simp [JobRepository.Delete, hres, herr]
    · simp [JobService.DeleteJob, JobRepository.Delete, hres, herr]
  · intro res hres herr
    constructor
    · intro e he
      simp [JobRepository.GetByID, hres, herr, he]
    · intro result source hr hs
      simp only [JobRepository.GetByID, hres, herr, hr, hs, JSON.asMap]
      cases json.Unmarshal tm source <;> simp

/-- C11, amended, at a response with status 404 to the get and with status 500 to the delete. -/
theorem C11_not_found_exactly_at_status_404_witness :
    JobRepository.GetByID textTime typeErrorText
        (answering { StatusCode := 404, text := "[404 Not Found]", body := .ok JSON.null })
        "1" = .error "job not found" ∧
      (JobRepository.Delete
          (answering { StatusCode := 500, text := "[500 Error]", body := .ok JSON.null }) "1" =
          .error ("error deleting document: " ++ "[500 Error]") ∧
        JobService.DeleteJob
          (answering { StatusCode := 500, text := "[500 Error]", body := .ok JSON.null }) "1" =
          .error ("failed to delete job: " ++ ("error deleting document: " ++ "[500 Error]")) ∧
        "job not found" ≠ "error deleting document: " ++ "[500 Error]") :=
  have h := C11_not_found_exactly_at_status_404 textTime typeErrorText
    (answering { StatusCode := 404, text := "[404 Not Found]", body := .ok JSON.null })
    (answering { StatusCode := 500, text := "[500 Error]", body := .ok JSON.null }) "1"
  ⟨h.1.mpr ⟨_, rfl, by decide, rfl⟩, h.2.2.2.2.2.2.1 _ rfl (by decide) (by decide)⟩

/-- C12, the code at failing inputs: between two hits that decode, a hit with no `_source`, a
hit whose `_source` is a string, and a hit that is not an object each make the loop panic at the
type assertions of line 175, so `JobRepository.Search` and `JobHandler.SearchJobs` return
nothing, not even the two hits that decode. A hit with a field of the wrong type in the same
place is skipped and a hit with no `_score` is returned, as the claim says. -/
theorem C12_hit_without_source_panics :
    JobRepository.decodeHits textTime
        [JSON.obj [("_source", JSON.obj [("id", JSON.str "1")]), ("_score", JSON.num 2)],
         JSON.obj [("_score", JSON.num 1)],
         JSON.obj [("_source", JSON.obj [("id", JSON.str "2")]), ("_score", JSON.num 1)]] [] =
        .panic ∧
      JobRepository.decodeHits textTime
        [JSON.obj [("_source", JSON.obj [("id", JSON.str "1")]), ("_score", JSON.num 2)],
         JSON.obj [("_source", JSON.str "text"), ("_score", JSON.num 1)],
         JSON.obj [("_source", JSON.obj [("id", JSON.str "2")]), ("_score", JSON.num 1)]] [] =
        .panic ∧
      JobRepository.decodeHits textTime
        [JSON.obj [("_source", JSON.obj [("id", JSON.str "1")]), ("_score", JSON.num 2)],
         JSON.null,
         JSON.obj [("_source", JSON.obj [("id", JSON.str "2")]), ("_score", JSON.num 1)]] [] =
        .panic ∧
      JobRepository.Search textTime
        (engineWithHits
          [JSON.obj [("_source", JSON.obj [("id", JSON.str "1")]), ("_score", JSON.num 2)],
           JSON.obj [("_score", JSON.num 1)],
           JSON.obj [("_source", JSON.obj [("id", JSON.str "2")]), ("_score", JSON.num 1)]])
        "" "" [] = .panic ∧
      JobHandler.SearchJobs textTime
        (engineWithHits
          [JSON.obj [("_source", JSON.obj [("id", JSON.str "1")]), ("_score", JSON.num 2)],
           JSON.obj [("_score", JSON.num 1)],
           JSON.obj [("_source", JSON.obj [("id", JSON.str "2")]), ("_score", JSON.num 1)]])
        { Query := "", Location := "", Skills := [] } = .panic ∧
      JobRepository.decodeHits textTime
        [JSON.obj [("_source", JSON.obj [("id", JSON.str "1")]), ("_score", JSON.num 2)],
         JSON.obj [("_source", JSON.obj [("id", JSON.num 7)]), ("_score", JSON.num 1)],
         JSON.obj [("_source", JSON.obj [("id", JSON.str "2")])]] [] =
        .ok [{ models.Job.zero textTime with ID := "1", Score := 2 },
             { models.Job.zero textTime with ID := "2" }] := by
  refine ⟨by decide, by decide, by decide, by decide, by decide, by decide⟩
